import Mathlib

/-!
Shallow embedding of the core of an analytical column-oriented database server:
the weighted-quantile aggregate (AggregateFunctionQuantileExactWeighted.h), the
open-addressed hash table (HashTable.h), the external loader (ExternalLoader.cpp:
config files reader, loading dispatcher, periodic updater) and the mutation
planner (MutationsInterpreter.cpp).  Definitions are translated from the C++
sources; the theorems settle the specification claims against them.
-/

namespace Spec2Proof

/-! ## Weighted-quantile aggregate (AggregateFunctionQuantileExactWeighted.h) -/

/-- One (value, weight) entry of the quantileExactWeighted state.  The value
type is a numeric type and the weight type UInt64; both are modelled as Nat. -/
abbrev QPair := Nat × Nat

/-- A quantile level: the nonnegative rational num/den.  The C++ level is a
double in [0, 1]; an exact rational models the mathematical value. -/
structure Level where
  num : Nat
  den : Nat
deriving DecidableEq, Repr

/-- Order on levels: num1/den1 is at most num2/den2. -/
def levelLE (a b : Level) : Prop := a.num * b.den ≤ b.num * a.den

instance (a b : Level) : Decidable (levelLE a b) :=
  inferInstanceAs (Decidable (a.num * b.den ≤ b.num * a.den))

/-- Insert a pair into a list that is ascending by value, keeping it ascending.
Models the effect of std::sort with the comparator a.first < b.first used by
insertResultInto (hash-map keys are distinct, so every sort with this
comparator yields the same list). -/
def insertByKey (p : QPair) : List QPair → List QPair
  | [] => [p]
  | q :: rest => if p.1 ≤ q.1 then p :: q :: rest else q :: insertByKey p rest

/-- Copy the entries to a temporary array and sort it ascending by value. -/
def sortByKey (l : List QPair) : List QPair :=
  l.foldr insertByKey []

/-- sum_weight: the total of all weights of the state. -/
def sumWeight (l : List QPair) : Nat := (l.map Prod.snd).sum

/-- UInt64 threshold = sum_weight * level: the product truncated to an unsigned
integer, i.e. the floor of s * (num/den), which for naturals is exactly
s * num / den. -/
def qThreshold (s : Nat) (level : Level) : Nat := s * level.num / level.den

/-- The scan loop of insertResultInto:
while (it < end and accumulated < threshold) { accumulated += it->second; ++it; }.
Returns the remaining entries (the position of the iterator) together with the
accumulated weight. -/
def scanToThreshold (threshold : Nat) : List QPair → Nat → List QPair × Nat
  | [], acc => ([], acc)
  | p :: rest, acc =>
    if acc < threshold then scanToThreshold threshold rest (acc + p.2) else (p :: rest, acc)

/-- The value of the last entry of the sorted array; it is what the iterator
yields after the correction if (it == end) --it. -/
def lastValue (l : List QPair) : Nat := ((l.getLast?).map Prod.fst).getD 0

/-- AggregateFunctionQuantileExactWeighted::insertResultInto on a state with the
given entries: an empty state yields ValueType() = 0; otherwise copy the
entries, sort by value, compute the threshold and run the scan loop; if the
scan stopped before the end return the value it stopped at, otherwise the last
value. -/
def finalizeQuantile (entries : List QPair) (level : Level) : Nat :=
  if entries = [] then 0
  else
    let arr := sortByKey entries
    let threshold := qThreshold (sumWeight entries) level
    match (scanToThreshold threshold arr 0).1 with
    | [] => lastValue arr
    | p :: _ => p.1

/-- The per-level loop of AggregateFunctionQuantilesExactWeighted::insertResultInto:
the iterator and the accumulated weight are carried over from one level to the
next (the scan is never restarted).  For each level it pushes it->first when
the iterator is before the end and the value of the last scanned entry
otherwise. -/
def multiScan (s : Nat) (last : Nat) : List Level → List QPair → Nat → List Nat
  | [], _, _ => []
  | level :: more, rem, acc =>
    let sc := scanToThreshold (qThreshold s level) rem acc
    (match sc.1 with
     | [] => last
     | p :: _ => p.1) :: multiScan s last more sc.1 sc.2

/-- AggregateFunctionQuantilesExactWeighted::insertResultInto: one value per
requested level; an empty state yields ValueType() = 0 for every level. -/
def finalizeQuantiles (entries : List QPair) (levels : List Level) : List Nat :=
  if entries = [] then levels.map fun _ => 0
  else multiScan (sumWeight entries) (lastValue (sortByKey entries)) levels (sortByKey entries) 0

/-- Claim C7 as the specification states it: for every state and every list of
levels, the value emitted by the multi-level finalization for a level equals
the value the single-level finalize would produce for that level. -/
def quantilesMatchSingleAll : Prop :=
  ∀ (entries : List QPair) (levels : List Level),
    finalizeQuantiles entries levels = levels.map (finalizeQuantile entries)

/-- Shorthand for the value the scan produces for one level on the sorted
array arr (entries nonempty): it->first if the iterator stopped before the
end, the last value otherwise. -/
def singleScanValue (s last : Nat) (arr : List QPair) (level : Level) : Nat :=
  match (scanToThreshold (qThreshold s level) arr 0).1 with
  | [] => last
  | p :: _ => p.1

/-! ## Open-addressed hash table (HashTable.h)

The table is instantiated as a hash map: every cell is a (key, mapped) pair of
unsigned integers, modelled as Nat.  A cell in the main buffer whose key is
zero is empty (HashTableCell::isZero); the pair with the zero key, if present,
lives in the zero-value side storage.  Modelled from the spec: the map cell
type itself (HashMap.h is not part of the sources) "holds a key and optionally
a mapped value", its serialization "is its key (plus mapped bytes for a map)",
and constructing a cell from a key alone leaves the mapped part uninitialized,
i.e. the bytes that were in the cell stay. -/

/-- A buffer cell: (key, mapped).  Key zero means the cell is empty. -/
abbrev HashCell := Nat × Nat

/-- The state of a HashTable: the main buffer, the grower degree
(capacity = 2 ^ sizeDegree), the element count m_size, and the zero-value
storage (has_zero flag plus the mapped part of the zero-key cell). -/
structure HashTableState where
  buf : List HashCell
  sizeDegree : Nat
  m_size : Nat
  hasZero : Bool
  zeroMapped : Nat
deriving DecidableEq, Repr

/-- HashTableGrower::bufSize: 1 << size_degree. -/
def growerBufSize (d : Nat) : Nat := 2 ^ d

/-- HashTableGrower::maxFill: 1 << (size_degree - 1). -/
def growerMaxFill (d : Nat) : Nat := 2 ^ (d - 1)

/-- HashTableGrower::overflow: elems > maxFill(). -/
def growerOverflow (d elems : Nat) : Bool := growerMaxFill d < elems

/-- HashTableGrower::increaseSize: size_degree += size_degree >= 23 ? 1 : 2. -/
def growerIncreased (d : Nat) : Nat := d + (if 23 ≤ d then 1 else 2)

/-- HashTableGrower::set, used when deserializing: keep the initial degree for
at most one element, otherwise the larger of the initial degree and
log2(num_elems - 1) + 2. -/
def growerSet (initialDegree numElems : Nat) : Nat :=
  if numElems ≤ 1 then initialDegree
  else max initialDegree (Nat.log2 (numElems - 1) + 2)

/-- A freshly constructed table with the given initial degree: a zero-filled
buffer of 2 ^ d cells and a zeroed zero-value cell. -/
def freshTable (d : Nat) : HashTableState :=
  { buf := List.replicate (2 ^ d) (0, 0), sizeDegree := d, m_size := 0,
    hasZero := false, zeroMapped := 0 }

/-- HashTable::findCell: probe from the given position while the cell is
neither empty nor key-equal, advancing by (pos + 1) mod bufSize.  The fuel
argument bounds the walk by the buffer length; the C++ loop relies on the
fill invariant for termination, and the fuel can only run out when that
invariant is broken (the probeDiverged outcome below). -/
def findCellAux (buf : List HashCell) (key : Nat) : Nat → Nat → Option Nat
  | _, 0 => none
  | pos, fuel + 1 =>
    match buf.get? pos with
    | none => none
    | some c =>
      if c.1 = 0 ∨ c.1 = key then some pos
      else findCellAux buf key ((pos + 1) % buf.length) fuel

/-- HashTable::findCell with fuel equal to the buffer length. -/
def findCell (buf : List HashCell) (key pos : Nat) : Option Nat :=
  findCellAux buf key pos buf.length

/-- HashTable::reinsert for the cell at index i of the buffer (used while
resizing): if the cell is already at its place, keep it; otherwise find its
cell along the chain; if that cell is occupied keep it, else copy the cell
there and zero the key of the old cell (setZero zeroes only the key, the
mapped bytes stay). -/
def reinsertAt (hash : Nat → Nat) (buf : List HashCell) (i : Nat) : List HashCell :=
  let x := buf.getD i (0, 0)
  let place := hash x.1 % buf.length
  if i = place then buf
  else
    match findCell buf x.1 place with
    | none => buf
    | some p =>
      if (buf.getD p (0, 0)).1 ≠ 0 then buf
      else (buf.set p x).set i (0, x.2)

/-- The tail pass of HashTable::resize: after the walk over the old buffer,
keep processing cells from old_size on while they are non-empty (they may
belong to a collision chain wrapping around the old end).  The fuel is the
number of cells after old_size; the C++ loop stops at the first empty cell. -/
def resizeTailPass (hash : Nat → Nat) (buf : List HashCell) (i : Nat) : Nat → List HashCell
  | 0 => buf
  | fuel + 1 =>
    if (buf.getD i (0, 0)).1 ≠ 0 then
      resizeTailPass hash (reinsertAt hash buf i) (i + 1) fuel
    else buf

/-- HashTable::resize on the insertion path (no arguments): grow the degree by
increaseSize, extend the buffer with zero-initialized cells (the allocator
zero-fills new memory), then reinsert every non-empty cell of the old buffer
and finally the wrap-around tail. -/
def resizeTable (hash : Nat → Nat) (st : HashTableState) : HashTableState :=
  let oldSize := growerBufSize st.sizeDegree
  let newDeg := growerIncreased st.sizeDegree
  let newSize := growerBufSize newDeg
  let buf1 := st.buf ++ List.replicate (newSize - st.buf.length) (0, 0)
  let buf2 := (List.range oldSize).foldl
    (fun b i => if (b.getD i (0, 0)).1 ≠ 0 then reinsertAt hash b i else b) buf1
  let buf3 := resizeTailPass hash buf2 oldSize newSize
  { st with buf := buf3, sizeDegree := newDeg }

/-- Failures of a table operation. -/
inductive HashTableError
  /-- The allocation during resize threw; the payload is the table state the
  error is surfaced in (after the emplace rollback). -/
  | allocFailed (st : HashTableState)
  /-- The probe loop found neither the key nor an empty cell within bufSize
  steps; cannot happen while the fill invariant holds. -/
  | probeDiverged
deriving DecidableEq

deriving instance DecidableEq for Except

/-- Where an emplaced pair landed. -/
inductive EmplaceLoc
  | zeroStorage
  | buffer (pos : Nat)
deriving DecidableEq

/-- HashTable::emplaceIfZero: a zero key goes to the zero-value storage; the
element count grows and has_zero is set on the first insertion.  Returns none
for a non-zero key. -/
def emplaceIfZero (st : HashTableState) (key : Nat) : Option (HashTableState × Bool) :=
  if key = 0 then
    if st.hasZero then some (st, false)
    else some ({ st with m_size := st.m_size + 1, hasZero := true }, true)
  else none

/-- The table right after `new(&buf[place_value]) Cell(key, *this)` and
`++m_size` in emplaceNonZeroImpl: the key is written into the empty cell at
position p; the mapped part stays uninitialized, i.e. the bytes that were in
the cell stay. -/
def emplaceInserted (st : HashTableState) (key p : Nat) : HashTableState :=
  { st with
    buf := st.buf.set p (key, (st.buf.getD p (0, 0)).2)
    m_size := st.m_size + 1 }

/-- The table after the rollback in the catch block of emplaceNonZeroImpl:
`--m_size; buf[place_value].setZero()` applied to the just-inserted state
(setZero zeroes only the key; the mapped bytes stay). -/
def emplaceRolledBack (st : HashTableState) (key p : Nat) : HashTableState :=
  { emplaceInserted st key p with
    m_size := (emplaceInserted st key p).m_size - 1
    buf := (emplaceInserted st key p).buf.set p (0, (st.buf.getD p (0, 0)).2) }

/-- HashTable::emplaceNonZero / emplaceNonZeroImpl: find the cell; if occupied
the key already exists.  Otherwise construct the cell in place, increment
m_size, and on overflow resize; if the resize allocation fails (allocFails
models the allocator throwing), the new cell's key is zeroed and m_size
decremented before the error is surfaced.  After a successful resize the key
is looked up again. -/
def emplaceNonZero (hash : Nat → Nat) (allocFails : Bool) (st : HashTableState)
    (key : Nat) : Except HashTableError (HashTableState × Bool × Nat) :=
  match findCell st.buf key (hash key % st.buf.length) with
  | none => .error .probeDiverged
  | some p =>
    if (st.buf.getD p (0, 0)).1 ≠ 0 then .ok (st, false, p)
    else if growerOverflow st.sizeDegree (st.m_size + 1) then
      if allocFails then .error (.allocFailed (emplaceRolledBack st key p))
      else
        match findCell (resizeTable hash (emplaceInserted st key p)).buf key
            (hash key % (resizeTable hash (emplaceInserted st key p)).buf.length) with
        | none => .error .probeDiverged
        | some p2 => .ok (resizeTable hash (emplaceInserted st key p), true, p2)
    else .ok (emplaceInserted st key p, true, p)

/-- HashTable::emplace: route zero keys to the zero-value storage, everything
else through emplaceNonZero. -/
def emplace (hash : Nat → Nat) (allocFails : Bool) (st : HashTableState)
    (key : Nat) : Except HashTableError (HashTableState × Bool × EmplaceLoc) :=
  match emplaceIfZero st key with
  | some (st', inserted) => .ok (st', inserted, .zeroStorage)
  | none =>
    (emplaceNonZero hash allocFails st key).map fun r => (r.1, r.2.1, .buffer r.2.2)

/-- Write the mapped part of the cell at the given location (setMapped). -/
def setMappedAt (st : HashTableState) (loc : EmplaceLoc) (m : Nat) : HashTableState :=
  match loc with
  | .zeroStorage => { st with zeroMapped := m }
  | .buffer p => { st with buf := st.buf.set p ((st.buf.getD p (0, 0)).1, m) }

/-- HashTable::insert of a full (key, mapped) value: emplace the key and, when
a new cell was created, store the mapped part (setMapped). -/
def insertValue (hash : Nat → Nat) (st : HashTableState) (v : HashCell) :
    Except HashTableError HashTableState :=
  match emplace hash false st v.1 with
  | .error e => .error e
  | .ok (st', inserted, loc) => .ok (if inserted then setMappedAt st' loc v.2 else st')

/-- The insertion performed by HashTable::read for each deserialized cell:
insert(Cell::getKey(x.getValue())) passes only the key, so the mapped part of
the new cell is never taken from the stream (it keeps whatever bytes the cell
had). -/
def insertKeyOnly (hash : Nat → Nat) (st : HashTableState) (key : Nat) :
    Except HashTableError HashTableState :=
  (emplace hash false st key).map fun r => r.1

/-- HashTable::write, binary form: varint size, then the zero-key cell if
present, then every non-empty cell in buffer order.  The stream is modelled as
the written size together with the list of written cells. -/
def writeTable (st : HashTableState) : Nat × List HashCell :=
  (st.m_size,
    (if st.hasZero then [(0, st.zeroMapped)] else []) ++ st.buf.filter fun c => c.1 ≠ 0)

/-- HashTable::read into a table with the given initial degree: the table is
cleared, the grower set from the claimed size, a zero-filled buffer allocated,
and then each of the size cells is read from the stream and inserted BY KEY
ONLY. -/
def readTable (hash : Nat → Nat) (initialDegree : Nat) (data : Nat × List HashCell) :
    Except HashTableError HashTableState :=
  let newDeg := growerSet initialDegree data.1
  let st0 : HashTableState :=
    { buf := List.replicate (2 ^ newDeg) (0, 0), sizeDegree := newDeg, m_size := 0,
      hasZero := false, zeroMapped := 0 }
  (data.2.take data.1).foldlM (fun s c => insertKeyOnly hash s c.1) st0

/-- Lookup of the mapped value of a key (HashTable::find): the zero key is
answered from the zero-value storage, other keys by probing. -/
def lookupTable (hash : Nat → Nat) (st : HashTableState) (key : Nat) : Option Nat :=
  if key = 0 then (if st.hasZero then some st.zeroMapped else none)
  else
    match findCell st.buf key (hash key % st.buf.length) with
    | none => none
    | some p =>
      let c := st.buf.getD p (0, 0)
      if c.1 ≠ 0 then some c.2 else none

/-- Run a sequence of emplace operations on a fresh table with the given
initial degree. -/
def emplaceSeq (hash : Nat → Nat) (initialDegree : Nat) (keys : List Nat) :
    Except HashTableError HashTableState :=
  keys.foldlM (fun s k => (emplace hash false s k).map fun r => r.1)
    (freshTable initialDegree)

/-- The density bound of claim C5, as a check on the outcome of one sequence
of emplaces: buffer capacity at most 4 * size + initial capacity. -/
def densityCheckFour (hash : Nat → Nat) (initialDegree : Nat) (keys : List Nat) : Bool :=
  match emplaceSeq hash initialDegree keys with
  | .error _ => true
  | .ok st => growerBufSize st.sizeDegree ≤ 4 * st.m_size + growerBufSize initialDegree

/-- Claim C5 as the specification states it: after every sequence of emplaces
the capacity is at most 4 * size + initial capacity. -/
def hashDensityBoundFour : Prop :=
  ∀ (hash : Nat → Nat) (initialDegree : Nat) (keys : List Nat),
    densityCheckFour hash initialDegree keys = true

/-! ## External loader (ExternalLoader.cpp)

Strings (object names, paths, configuration contents) and pointers (loaded
objects, exceptions) are modelled as opaque Nat identities; wall-clock time
points are Nat seconds, with none standing for TimePoint::max() ("never").
The user-supplied callbacks (create_object, calculate_next_update_time) are
explicit function parameters, and the random draw of a uniform_int_distribution
is passed in as a parameter constrained to the distribution's support. -/

/-- ExternalLoader::ObjectConfig: the path of the file the object came from,
the parsed configuration (an opaque content identity) and the key of the
object inside it. -/
structure ObjectConfig where
  config_path : Nat
  config : Nat
  key_in_config : Nat
deriving DecidableEq, Repr

/-- isSameConfiguration (AbstractConfigurationComparison, outside the sampled
sources): compares the configuration subtrees denoted by config/key_in_config;
the file path does not take part. -/
def isSameConfiguration (a b : ObjectConfig) : Bool :=
  a.config == b.config && a.key_in_config == b.key_in_config

/-- ExternalLoader::Status. -/
inductive Status
  | NOT_LOADED
  | LOADED
  | FAILED
  | LOADING
  | LOADED_AND_RELOADING
  | FAILED_AND_RELOADING
  | NOT_EXIST
deriving DecidableEq, Repr

/-- LoadingDispatcher::Info: the per-object record of the dispatcher. -/
structure Info where
  config : ObjectConfig
  object : Option Nat
  loading_start_time : Nat
  loading_end_time : Nat
  loading_id : Nat
  error_count : Nat
  exception : Option Nat
  config_changed : Bool
  forced_to_reload : Bool
  next_update_time : Option Nat
deriving DecidableEq, Repr

/-- Info as constructed by Info{config}: all other members take their default
initializers (null object, null exception, loading_id 0, error_count 0, flags
false, next_update_time TimePoint::max()). -/
def Info.mkNew (config : ObjectConfig) : Info :=
  { config := config, object := none, loading_start_time := 0, loading_end_time := 0,
    loading_id := 0, error_count := 0, exception := none, config_changed := false,
    forced_to_reload := false, next_update_time := none }

/-- Info::loaded: object != nullptr. -/
def Info.loaded (i : Info) : Bool := i.object.isSome

/-- Info::failed: !object && exception. -/
def Info.failed (i : Info) : Bool := !i.object.isSome && i.exception.isSome

/-- Info::loading: loading_id != 0. -/
def Info.loading (i : Info) : Bool := i.loading_id != 0

/-- Info::was_loading: loaded() || failed() || loading(). -/
def Info.was_loading (i : Info) : Bool := i.loaded || i.failed || i.loading

/-- Info::ready: (loaded() || failed()) && !forced_to_reload. -/
def Info.ready (i : Info) : Bool := (i.loaded || i.failed) && !i.forced_to_reload

/-- Info::status. -/
def Info.status (i : Info) : Status :=
  if i.object.isSome then
    (if i.loading then Status.LOADED_AND_RELOADING else Status.LOADED)
  else if i.exception.isSome then
    (if i.loading then Status.FAILED_AND_RELOADING else Status.FAILED)
  else
    (if i.loading then Status.LOADING else Status.NOT_LOADED)

/-- ExternalLoader::LoadResult, as filled in by Info::load_result (the
loading_duration member, which depends on the wall clock at query time, is
left out). -/
structure LoadResult where
  status : Status
  object : Option Nat
  exception : Option Nat
  loading_start_time : Nat
  origin : Nat
deriving DecidableEq, Repr

/-- Info::load_result: copies status, object, exception, start time and the
config path. -/
def Info.load_result (i : Info) : LoadResult :=
  { status := i.status, object := i.object, exception := i.exception,
    loading_start_time := i.loading_start_time, origin := i.config.config_path }

/-- The body of LoadingDispatcher::startLoading restricted to one Info: if it
is already loading do nothing, otherwise stamp the fresh loading id and the
start time and clear the end time.  (The dispatcher allocates the id from
next_loading_id and then either queues the job or runs doLoading inline; the
dispatcher-level wrapper below does that.) -/
def Info.startLoading (i : Info) (loading_id now : Nat) : Info :=
  if i.loading_id ≠ 0 then i
  else { i with loading_id := loading_id, loading_start_time := now, loading_end_time := 0 }

/-- LoadingDispatcher::cancelLoading on one Info: reset loading_id (the
advisory cancellation signal) and stamp the end time. -/
def Info.cancelLoading (i : Info) (now : Nat) : Info :=
  if i.loading_id = 0 then i
  else { i with loading_id := 0, loading_end_time := now }

/-- The commit phase of LoadingDispatcher::doLoading (after the lock is
re-acquired): a stale or cancelled loading id discards the outcome; otherwise
on success the object is replaced, the exception cleared, error_count reset
and config_changed cleared, while on failure the previous object is retained,
the exception stored and error_count incremented; in both cases loading ends
and forced_to_reload is cleared, and next_update_time is set to the value the
caller-supplied calculator produced. -/
def Info.finishLoading (i : Info) (loading_id : Nat) (outcome : Except Nat Nat)
    (next_update : Option Nat) (now : Nat) : Info :=
  if i.loading_id = 0 ∨ i.loading_id ≠ loading_id then i
  else
    { i with
      object := match outcome with | .ok o => some o | .error _ => i.object
      exception := match outcome with | .ok _ => none | .error e => some e
      error_count := match outcome with | .ok _ => 0 | .error _ => i.error_count + 1
      loading_end_time := now
      loading_id := 0
      next_update_time := next_update
      forced_to_reload := false
      config_changed := match outcome with | .ok _ => false | .error _ => i.config_changed }

/-- The Info states reachable through the dispatcher's operations on a single
record: creation from a config, start of a loading, advisory cancellation,
commit of a loading outcome, the config-changed update of setConfiguration,
the forced_to_reload mark of reload(), and the next_update_time refresh of
reloadOutdated(). -/
inductive InfoReachable : Info → Prop where
  | init (config : ObjectConfig) : InfoReachable (Info.mkNew config)
  | startLoading {i : Info} (id now : Nat) :
      InfoReachable i → InfoReachable (i.startLoading id now)
  | cancelLoading {i : Info} (now : Nat) :
      InfoReachable i → InfoReachable (i.cancelLoading now)
  | finishLoading {i : Info} (id : Nat) (outcome : Except Nat Nat)
      (next_update : Option Nat) (now : Nat) :
      InfoReachable i → InfoReachable (i.finishLoading id outcome next_update now)
  | configChanged {i : Info} (c : ObjectConfig) :
      InfoReachable i → InfoReachable { i with config := c, config_changed := true }
  | forceReload {i : Info} :
      InfoReachable i → InfoReachable { i with forced_to_reload := true }
  | setNextUpdateTime {i : Info} (t : Option Nat) :
      InfoReachable i → InfoReachable { i with next_update_time := t }

/-- Claim C3 as the specification states it: on every reachable Info,
status() = LOADED exactly when load_result().object is non-null and
load_result().exception is null. -/
def statusCoherenceLOADED : Prop :=
  ∀ i : Info, InfoReachable i →
    (i.status = Status.LOADED ↔ (i.load_result.object ≠ none ∧ i.load_result.exception = none))

/-- The user-supplied callbacks held by the dispatcher: create_object returns
the new object or the raised exception (returning neither is the LOGICAL_ERROR
path and cannot be expressed), and calculate_next_update_time maps the loaded
object and the error count to the next update time. -/
structure DispatcherEnv where
  create_object : Nat → ObjectConfig → Bool → Option Nat → Except Nat Nat
  calculate_next_update : Option Nat → Nat → Option Nat

/-- A snapshot of object configurations (ConfigFilesReader::ObjectConfigs): an
immutable name-to-config map shared by pointer; id is the pointer identity of
the shared_ptr, unique per published snapshot. -/
structure Snapshot where
  id : Nat
  entries : List (Nat × ObjectConfig)
deriving DecidableEq, Repr

/-- Lookup of a name in a snapshot's entries. -/
def lookupEntry (l : List (Nat × ObjectConfig)) (name : Nat) : Option ObjectConfig :=
  (l.find? (·.1 == name)).map (·.2)

/-- The state of LoadingDispatcher that its operations touch: the held
snapshot pointer, the info registry, the two mode flags, the loading-id
counter, and the jobs handed to the worker pool (their threads run doLoading
later). -/
structure DispatcherState where
  configs : Option Snapshot
  infos : List (Nat × Info)
  always_load_everything : Bool
  enable_async_loading : Bool
  next_loading_id : Nat
  pending_jobs : List (Nat × Nat)
deriving Repr

/-- LoadingDispatcher::getInfo. -/
def getInfo (infos : List (Nat × Info)) (name : Nat) : Option Info :=
  (infos.find? (·.1 == name)).map (·.2)

/-- Replace the Info stored under a name. -/
def setInfo (infos : List (Nat × Info)) (name : Nat) (i : Info) : List (Nat × Info) :=
  infos.map fun p => if p.1 == name then (p.1, i) else p

/-- LoadingDispatcher::doLoading in the synchronous case (async == false): if
the planned loading is still the current one, run create_object, derive the
new error count and next update time, and commit through Info.finishLoading;
a stale id discards the outcome. -/
def dispatchDoLoading (env : DispatcherEnv) (st : DispatcherState) (name loading_id now : Nat) :
    DispatcherState :=
  match getInfo st.infos name with
  | none => st
  | some info =>
    if info.loading_id = 0 ∨ info.loading_id ≠ loading_id then st
    else
      let outcome := env.create_object name info.config info.config_changed info.object
      let ec := match outcome with | .ok _ => 0 | .error _ => info.error_count + 1
      let nu := env.calculate_next_update
        (match outcome with | .ok o => some o | .error _ => none) ec
      { st with infos := setInfo st.infos name (info.finishLoading loading_id outcome nu now) }

/-- LoadingDispatcher::startLoading: allocate the unique loading id, stamp the
info, then either queue the job on the worker pool (async) or perform the
loading immediately. -/
def dispatchStartLoading (env : DispatcherEnv) (st : DispatcherState) (name now : Nat) :
    DispatcherState :=
  match getInfo st.infos name with
  | none => st
  | some info =>
    if info.loading_id ≠ 0 then st
    else
      let lid := st.next_loading_id
      let st1 := { st with
        infos := setInfo st.infos name (info.startLoading lid now)
        next_loading_id := lid + 1 }
      if st.enable_async_loading then
        { st1 with pending_jobs := st1.pending_jobs ++ [(name, lid)] }
      else dispatchDoLoading env st1 name lid now

/-- LoadingDispatcher::cancelLoading by name. -/
def dispatchCancelLoading (st : DispatcherState) (name now : Nat) : DispatcherState :=
  match getInfo st.infos name with
  | none => st
  | some info => { st with infos := setInfo st.infos name (info.cancelLoading now) }

/-- LoadingDispatcher::setConfiguration: if the new snapshot is the very
pointer already held, return at once.  Otherwise store the pointer; for each
known name still present with a changed configuration, update the config, set
config_changed and — if the object was ever loading — cancel and restart its
loading; insert an Info for every new name (starting it when
always_load_everything is on); finally erase the names that disappeared. -/
def setConfiguration (env : DispatcherEnv) (st : DispatcherState) (new_configs : Snapshot)
    (now : Nat) : DispatcherState :=
  if (match st.configs with | some s => s.id == new_configs.id | none => false) then st
  else
    let st1 := { st with configs := some new_configs }
    let names := st.infos.map (·.1)
    let st2 := names.foldl (fun acc name =>
      match getInfo acc.infos name with
      | none => acc
      | some info =>
        match lookupEntry new_configs.entries name with
        | none => acc
        | some new_config =>
          if isSameConfiguration info.config new_config then acc
          else
            let acc1 := { acc with
              infos := setInfo acc.infos name
                { info with config := new_config, config_changed := true } }
            if info.was_loading then
              dispatchStartLoading env (dispatchCancelLoading acc1 name now) name now
            else acc1) st1
    let removed := names.filter fun n => (lookupEntry new_configs.entries n).isNone
    let st3 := new_configs.entries.foldl (fun acc nc =>
      if (getInfo acc.infos nc.1).isSome then acc
      else
        let acc1 := { acc with infos := acc.infos ++ [(nc.1, Info.mkNew nc.2)] }
        if acc.always_load_everything then dispatchStartLoading env acc1 nc.1 now
        else acc1) st2
    { st3 with infos := st3.infos.filter fun p => !(removed.contains p.1) }

/-! ### Periodic updater (ExternalLoader::PeriodicUpdater) -/

/-- The backoff parameters of ExternalLoaderUpdateSettings used by
calculateNextUpdateTime. -/
structure UpdateSettings where
  backoff_initial_sec : Nat
  backoff_max_sec : Nat
deriving DecidableEq, Repr

/-- The upper endpoint passed to the backoff distribution:
static_cast<UInt64>(std::exp2(error_count - 1)) = 2 ^ (error_count - 1).
std::uniform_int_distribution(0, b) draws from the CLOSED range [0, b]. -/
def backoffSampleMax (error_count : Nat) : Nat := 2 ^ (error_count - 1)

/-- PeriodicUpdater::calculateNextUpdateTime.  The draw of the distribution in
use is the parameter r: for error_count = 0 the caller constrains it to
[lifetime_min, lifetime_max], for error_count > 0 to [0, backoffSampleMax].
none models TimePoint::max() ("never"). -/
def calculateNextUpdateTime (settings : UpdateSettings) (supportUpdates : Bool)
    (lifetime_min lifetime_max : Nat) (error_count : Nat) (r : Nat) (now : Nat) :
    Option Nat :=
  if error_count = 0 then
    if ¬ supportUpdates then none
    else if lifetime_min = 0 ∨ lifetime_max = 0 then none
    else some (now + r)
  else some (now + min settings.backoff_max_sec (settings.backoff_initial_sec + r))

/-- Claim C6 as the specification states it for the backoff branch: the
possible return values for error_count > 0 are exactly now plus
backoff_initial_sec plus a sample from the HALF-OPEN range [0, 2^(ec-1)),
clamped to backoff_max_sec. -/
def backoffOutcomesHalfOpen : Prop :=
  ∀ (settings : UpdateSettings) (s : Bool) (mn mx ec now t : Nat), 0 < ec →
    ((∃ q, q ≤ backoffSampleMax ec ∧
        calculateNextUpdateTime settings s mn mx ec q now = some t)
      ↔ ∃ q, q < 2 ^ (ec - 1) ∧
          t = now + min settings.backoff_max_sec (settings.backoff_initial_sec + q))

/-! ### Config files reader (ExternalLoader::ConfigFilesReader) -/

/-- What the repository answers for one path: exists(), the last modification
time, and the outcome of loading and parsing the file into its (name, config)
declarations — .error stands for any exception thrown while reading.  (The
key-prefix filtering and name extraction run on the out-of-scope Poco
configuration interface and are folded into the parsed list.) -/
structure RepoFile where
  present : Bool
  mtime : Nat
  parsed : Except Unit (List (Nat × ObjectConfig))
deriving Repr

/-- ConfigFilesReader::FileInfo. -/
structure FileInfo where
  last_modification_time : Nat
  configs : List (Nat × ObjectConfig)
  in_use : Bool
deriving DecidableEq, Repr

/-- ConfigFilesReader::readFileInfo: a missing path is logged and skipped; an
unchanged modification time only re-marks the record as in use; otherwise the
file is parsed, and on success the record is replaced wholesale.  Any
exception is caught, logged, and readFileInfo returns false — in that case the
record, including its cleared in_use flag, is left exactly as it was. -/
def readFileInfo (fs : Nat → RepoFile) (path : Nat) (ignore_mtime : Bool)
    (fi : FileInfo) : FileInfo × Bool :=
  let f := fs path
  if ¬ f.present then (fi, false)
  else if ¬ ignore_mtime ∧ f.mtime ≤ fi.last_modification_time then
    ({ fi with in_use := true }, false)
  else
    match f.parsed with
    | .error _ => (fi, false)
    | .ok configs_from_file =>
      ({ last_modification_time := f.mtime, configs := configs_from_file,
         in_use := true }, true)

/-- ConfigFilesReader::readFileInfos over one repository listing the given
paths: clear every in_use flag, read every listed path (new paths start from a
default-constructed FileInfo and ignore timestamps), then purge the records
whose in_use flag stayed false; any purge counts as a change. -/
def readFileInfos (fs : Nat → RepoFile) (paths : List Nat) (ignore_mtime : Bool)
    (file_infos : List (Nat × FileInfo)) : List (Nat × FileInfo) × Bool :=
  let cleared := file_infos.map fun p => (p.1, { p.2 with in_use := false })
  let res := paths.foldl (fun (acc : List (Nat × FileInfo) × Bool) path =>
    match (acc.1.find? (·.1 == path)).map (·.2) with
    | some fi =>
      let r := readFileInfo fs path ignore_mtime fi
      ((acc.1.map fun p => if p.1 == path then (p.1, r.1) else p), acc.2 || r.2)
    | none =>
      let r := readFileInfo fs path true
        { last_modification_time := 0, configs := [], in_use := true }
      if r.2 then (acc.1 ++ [(path, r.1)], true) else acc) (cleared, false)
  let survivors := res.1.filter fun p => p.2.in_use
  if survivors.length = res.1.length then res
  else (survivors, true)

/-- The state of the ConfigFilesReader: the cached snapshot (pointer identity
plus contents; none = never built) and the file cache. -/
structure ReaderState where
  configs : Option (Nat × List (Nat × ObjectConfig))
  file_infos : List (Nat × FileInfo)
  next_snapshot_id : Nat
deriving Repr

/-- ConfigFilesReader::read: re-read the files; if nothing changed hand back
the cached snapshot pointer unchanged; otherwise merge all file records into a
fresh snapshot, dropping duplicate names with a warning in favour of the
earlier file. -/
def readerRead (fs : Nat → RepoFile) (paths : List Nat) (ignore_mtime : Bool)
    (st : ReaderState) : ReaderState × Option (Nat × List (Nat × ObjectConfig)) :=
  let r := readFileInfos fs paths ignore_mtime st.file_infos
  if ¬ r.2 then ({ st with file_infos := r.1 }, st.configs)
  else
    let merged := r.1.foldl (fun acc pfi =>
      pfi.2.configs.foldl (fun acc2 nc =>
        if (acc2.find? (·.1 == nc.1)).isSome then acc2 else acc2 ++ [nc]) acc) []
    let snap := (st.next_snapshot_id, merged)
    ({ st with
        file_infos := r.1
        configs := some snap
        next_snapshot_id := st.next_snapshot_id + 1 }, some snap)

/-! ## Mutation planner (MutationsInterpreter.cpp)

Column, type and index names are Nat identities.  Expression syntax trees are
built from identifiers, literals and curried function application (an n-ary
function node f(a, b, c) is encoded as apply(apply(apply(fn f, a), b), c)),
which keeps the recursion structural.  The SyntaxAnalyzer is out of scope
("treated as a black box that resolves column dependencies"), so
requiredSourceColumns is the set of identifiers occurring in an expression. -/

/-- An expression tree (IAST): identifier, literal, function head, or
application of one more argument to a function expression. -/
inductive AST
  | ident (name : Nat)
  | lit (v : Nat)
  | fn (name : String)
  | apply (f : AST) (arg : AST)
deriving DecidableEq, Repr

/-- makeASTFunction("not", p). -/
def astNot (p : AST) : AST := .apply (.fn "not") p

/-- makeASTFunction("if", c, a, b). -/
def astIf (c a b : AST) : AST := .apply (.apply (.apply (.fn "if") c) a) b

/-- makeASTFunction("CAST", e, ASTLiteral(type_name)). -/
def astCast (e : AST) (type_name : Nat) : AST :=
  .apply (.apply (.fn "CAST") e) (.lit type_name)

/-- SyntaxAnalyzer(...).analyze(query).requiredSourceColumns(): the column
identifiers an expression reads. -/
def AST.requiredSourceColumns : AST → List Nat
  | .ident n => [n]
  | .lit _ => []
  | .fn _ => []
  | .apply f a => f.requiredSourceColumns ++ a.requiredSourceColumns

/-- One column of the storage: its name, the name of its type, and — when the
column is MATERIALIZED — its defining expression (ordinary columns carry
none). -/
structure ColumnDesc where
  name : Nat
  type_name : Nat
  materialized : Option AST
deriving DecidableEq, Repr

/-- The parts of the storage the planner consumes: the physical columns, the
key columns gathered by getKeyColumns (partition, sorting, sign and version
columns of the MergeTree), and the data skipping indices with their
expressions. -/
structure StorageModel where
  columns : List ColumnDesc
  key_columns : List Nat
  indices : List (Nat × AST)
deriving DecidableEq, Repr

/-- MutationCommand: DELETE, UPDATE or MATERIALIZE_INDEX.  (An unknown kind is
unrepresentable; it raises UNKNOWN_MUTATION_COMMAND in the source.) -/
inductive MutationCommand
  | delete (predicate : AST)
  | update (column_to_update_expression : List (Nat × AST)) (predicate : AST)
  | materializeIndex (index_name : Nat)
deriving DecidableEq, Repr

/-- MutationsInterpreter::Stage, as far as the staging loop fills it: the
DELETE filters and the column-to-updated-expression map. -/
structure Stage where
  filters : List AST
  column_to_updated : List (Nat × AST)
deriving DecidableEq, Repr

/-- A stage as freshly emplaced. -/
def emptyStage : Stage := ⟨[], []⟩

/-- The typed errors the planner raises. -/
inductive MutationError
  | CANNOT_UPDATE_COLUMN
  | NO_SUCH_COLUMN_IN_TABLE
  | BAD_ARGUMENTS
  | LOGICAL_ERROR
deriving DecidableEq, Repr

/-- std::unordered_map::emplace: insert the binding only when the key is not
present yet. -/
def emplaceColumn (m : List (Nat × AST)) (c : Nat) (e : AST) : List (Nat × AST) :=
  if (m.find? (·.1 == c)).isSome then m else m ++ [(c, e)]

/-- NameSet insertion: append the name unless it is already present. -/
def dedupInsert (a : List Nat) (x : Nat) : List Nat :=
  if a.contains x then a else a ++ [x]

/-- The set (dedup list) of columns updated by any UPDATE command. -/
def updatedColumnsOf (commands : List MutationCommand) : List Nat :=
  commands.foldl (fun acc c =>
    match c with
    | .update pairs _ => pairs.foldl (fun a kv => dedupInsert a kv.1) acc
    | _ => acc) []

/-- One column's contribution to column_to_affected_materialized[column]: the
materialized columns whose defining expressions read the given column; the map
is only populated while the column is among the updated ones. -/
def affectedStep (updated : List Nat) (column : Nat) (acc : List Nat)
    (col : ColumnDesc) : List Nat :=
  match col.materialized with
  | none => acc
  | some e =>
    if updated.contains column && e.requiredSourceColumns.contains column then
      acc ++ [col.name]
    else acc

/-- column_to_affected_materialized[column] (see affectedMaterializedOf). -/
def affectedMaterializedOf (storage : StorageModel) (updated : List Nat)
    (column : Nat) : List Nat :=
  storage.columns.foldl (affectedStep updated column) []

/-- The affected_materialized set collected while processing one UPDATE: the
union of column_to_affected_materialized over its updated columns. -/
def affectedOfPairs (storage : StorageModel) (updated : List Nat)
    (pairs : List (Nat × AST)) : List Nat :=
  pairs.foldl (fun a kv =>
    (affectedMaterializedOf storage updated kv.1).foldl dedupInsert a) []

/-- The union of required_columns of the indices whose dependencies meet the
updated columns (the preamble of prepare). -/
def indicesAffectedByUpdate (storage : StorageModel) (updated : List Nat) : List Nat :=
  storage.indices.foldl (fun acc idx =>
    if idx.2.requiredSourceColumns.any (fun d => updated.contains d) then
      idx.2.requiredSourceColumns.foldl dedupInsert acc
    else acc) []

/-- columns_desc.getPhysical(column).type->getName(). -/
def getColumnTypeName (storage : StorageModel) (c : Nat) : Nat :=
  ((storage.columns.find? (·.name == c)).map (·.type_name)).getD 0

/-- validateUpdateColumns for one updated column: it must exist as an ordinary
column (a materialized one raises CANNOT_UPDATE_COLUMN, a missing one
NO_SUCH_COLUMN_IN_TABLE), must not be a key column, and no materialized column
depending on it may be a key column. -/
def validateOne (storage : StorageModel) (affected : Nat → List Nat) (c : Nat) :
    Except MutationError Unit :=
  if ¬ storage.columns.any (fun col => col.name == c && col.materialized.isNone) then
    (if storage.columns.any (fun col => col.name == c && col.materialized.isSome) then
      .error .CANNOT_UPDATE_COLUMN
    else .error .NO_SUCH_COLUMN_IN_TABLE)
  else if storage.key_columns.contains c then .error .CANNOT_UPDATE_COLUMN
  else if (affected c).any (fun m => storage.key_columns.contains m) then
    .error .CANNOT_UPDATE_COLUMN
  else .ok ()

/-- validateUpdateColumns over all updated columns. -/
def validateUpdateColumns (storage : StorageModel) (updated : List Nat)
    (affected : Nat → List Nat) : Except MutationError Unit :=
  updated.foldlM (fun _ c => validateOne storage affected c) ()

/-- CAST(if(predicate, new_expr, column), original_type_name): the replacement
expression an UPDATE contributes for one column. -/
def castIfExpr (storage : StorageModel) (predicate : AST) (column : Nat)
    (update_expr : AST) : AST :=
  astCast (astIf predicate update_expr (.ident column)) (getColumnTypeName storage column)

/-- Whether the staging loop must open a fresh stage: the list is empty or the
last stage already updates columns. -/
def needNewStage : List Stage → Bool
  | [] => true
  | top :: _ => !top.column_to_updated.isEmpty

/-- Apply a function to the last stage (the head of the reversed stage list the
loop accumulates). -/
def modifyHead (f : Stage → Stage) : List Stage → List Stage
  | [] => []
  | s :: rest => f s :: rest

/-- `if (stages.empty() || !stages.back().column_to_updated.empty())
stages.emplace_back(context);` — the guard common to DELETE and UPDATE. -/
def openFilterStage (sts : List Stage) : List Stage :=
  if needNewStage sts then emptyStage :: sts else sts

/-- The additional guard of UPDATE: `if (stages.size() == 1)
stages.emplace_back(context);` — the first stage only filters. -/
def updateGuardStages (sts : List Stage) : List Stage :=
  if (openFilterStage sts).length == 1 then emptyStage :: openFilterStage sts
  else openFilterStage sts

/-- DELETE: push NOT predicate onto the filters of the current stage. -/
def deleteStagesFn (sts : List Stage) (pred : AST) : List Stage :=
  modifyHead (fun s => { s with filters := s.filters ++ [astNot pred] })
    (openFilterStage sts)

/-- One step of the UPDATE loop: emplace
CAST(if(predicate, new_expr, column), type) for one updated column. -/
def updStep (storage : StorageModel) (pred : AST) (m : List (Nat × AST))
    (kv : Nat × AST) : List (Nat × AST) :=
  emplaceColumn m kv.1 (castIfExpr storage pred kv.1 kv.2)

/-- UPDATE: emplace the replacement expression for every updated column into
the current (update) stage. -/
def applyUpdates (storage : StorageModel) (pairs : List (Nat × AST)) (pred : AST)
    (sts : List Stage) : List Stage :=
  modifyHead (fun s =>
    { s with column_to_updated := pairs.foldl (updStep storage pred) s.column_to_updated })
    (updateGuardStages sts)

/-- One column's contribution to the materialized follow-up stage: a
materialized column is emplaced with its defining expression, other columns
are skipped. -/
def matStep (m : List (Nat × AST)) (col : ColumnDesc) : List (Nat × AST) :=
  match col.materialized with
  | some e => emplaceColumn m col.name e
  | none => m

/-- The follow-up stage appended when an UPDATE touches a column some
materialized column depends on: it rewrites EVERY materialized column of the
table to its defining expression (the loop filters only on the kind, not on
membership in affected_materialized). -/
def matStage (storage : StorageModel) : Stage :=
  { filters := []
    column_to_updated := storage.columns.foldl matStep [] }

/-- The whole effect of one UPDATE command on the (reversed) stage list. -/
def updateStagesFn (storage : StorageModel) (updated : List Nat) (sts : List Stage)
    (pairs : List (Nat × AST)) (pred : AST) : List Stage :=
  if (affectedOfPairs storage updated pairs).isEmpty then
    applyUpdates storage pairs pred sts
  else matStage storage :: applyUpdates storage pairs pred sts

/-- One iteration of the staging loop of prepare, over the reversed stage list
and the accumulated affected-indices column set. -/
def stageStep (storage : StorageModel) (updated : List Nat)
    (acc : List Stage × List Nat) (cmd : MutationCommand) :
    Except MutationError (List Stage × List Nat) :=
  match cmd with
  | .delete pred => .ok (deleteStagesFn acc.1 pred, acc.2)
  | .update pairs pred => .ok (updateStagesFn storage updated acc.1 pairs pred, acc.2)
  | .materializeIndex iname =>
    match storage.indices.find? (·.1 == iname) with
    | none => .error .BAD_ARGUMENTS
    | some idx =>
      .ok (acc.1, idx.2.requiredSourceColumns.foldl dedupInsert acc.2)

/-- The staging loop itself. -/
def stagingLoop (storage : StorageModel) (updated : List Nat)
    (cmds : List MutationCommand) (acc : List Stage × List Nat) :
    Except MutationError (List Stage × List Nat) :=
  match cmds with
  | [] => .ok acc
  | c :: rest =>
    match stageStep storage updated acc c with
    | .error e => .error e
    | .ok acc2 => stagingLoop storage updated rest acc2

/-- The special final stage recalculating affected indices: each relevant
column is mapped to its own identifier. -/
def indexStage (cols : List Nat) : Stage :=
  { filters := []
    column_to_updated := cols.foldl (fun m c => emplaceColumn m c (AST.ident c)) [] }

/-- MutationsInterpreter::prepare, up to the emitted stage list: reject an
empty command list, collect the updated columns, validate them, run the
staging loop (the accumulator keeps the stages reversed, newest first), and
append the index stage when index recomputation is required. -/
def prepare (storage : StorageModel) (commands : List MutationCommand) :
    Except MutationError (List Stage) :=
  if commands.isEmpty then .error .LOGICAL_ERROR
  else
    match (if (updatedColumnsOf commands).isEmpty then .ok () else
        validateUpdateColumns storage (updatedColumnsOf commands)
          (affectedMaterializedOf storage (updatedColumnsOf commands))) with
    | .error e => .error e
    | .ok _ =>
      match stagingLoop storage (updatedColumnsOf commands) commands
          ([], if (updatedColumnsOf commands).isEmpty then [] else
            indicesAffectedByUpdate storage (updatedColumnsOf commands)) with
      | .error e => .error e
      | .ok r =>
        .ok (if r.2.isEmpty then r.1.reverse else (indexStage r.2 :: r.1).reverse)

/-- Claim C9 as the specification states it: every UPDATE contributes, for
each updated column, the CAST(if(predicate, new_expr, column), type)
replacement in some stage; and whenever the UPDATE touches a column some
materialized column depends on, some stage rewrites each such dependent
materialized column AND ONLY THOSE to its defining expression. -/
def updateStagingAsStated : Prop :=
  ∀ (storage : StorageModel) (commands : List MutationCommand) (stages : List Stage)
    (pairs : List (Nat × AST)) (predicate : AST),
    prepare storage commands = .ok stages →
    MutationCommand.update pairs predicate ∈ commands →
    (pairs.map Prod.fst).Nodup →
    (storage.columns.map (·.name)).Nodup →
    ((∀ ce ∈ pairs, ∃ st ∈ stages,
        (ce.1, castIfExpr storage predicate ce.1 ce.2) ∈ st.column_to_updated)
      ∧ (affectedOfPairs storage (updatedColumnsOf commands) pairs ≠ [] →
          ∃ st ∈ stages,
            (∀ m ∈ affectedOfPairs storage (updatedColumnsOf commands) pairs,
              m ∈ st.column_to_updated.map Prod.fst)
            ∧ ∀ p ∈ st.column_to_updated,
                p.1 ∈ affectedOfPairs storage (updatedColumnsOf commands) pairs))


/-- The concrete table of the C9 instance: plain columns 1 and 2, materialized
column 3 = multiply(column 1, 2) reading column 1, and materialized column
4 = multiply(column 2, 3) reading only column 2. -/
def exampleStorage : StorageModel :=
  { columns :=
      [⟨1, 100, none⟩, ⟨2, 100, none⟩,
       ⟨3, 100, some (.apply (.apply (.fn "multiply") (.ident 1)) (.lit 2))⟩,
       ⟨4, 100, some (.apply (.apply (.fn "multiply") (.ident 2)) (.lit 3))⟩]
    key_columns := []
    indices := [] }

/-- The columns-to-expression list of the single UPDATE of the instance. -/
def exampleUpdatePairs : List (Nat × AST) := [(1, .lit 9)]

/-- Its predicate (WHERE 1). -/
def exampleUpdatePred : AST := .lit 1

/-- The single UPDATE command of the instance. -/
def exampleCommands : List MutationCommand :=
  [.update exampleUpdatePairs exampleUpdatePred]

/-- The stage list prepare produces for the instance: a pure filter stage, the
update stage, and the materialized follow-up stage rewriting BOTH materialized
columns although only column 3 depends on the updated column 1. -/
def exampleStages : List Stage :=
  [⟨[], []⟩,
   ⟨[], [(1, castIfExpr exampleStorage exampleUpdatePred 1 (.lit 9))]⟩,
   ⟨[], [(3, .apply (.apply (.fn "multiply") (.ident 1)) (.lit 2)),
         (4, .apply (.apply (.fn "multiply") (.ident 2)) (.lit 3))]⟩]

/-! ## Theorems -/

/-- The scan never consumes entries once the accumulated weight has reached the
threshold, so running it with a smaller threshold first and resuming with the
larger one reaches the same position and accumulated weight as running it with
the larger threshold from the start. -/
theorem scanToThreshold_resume (t1 t2 : Nat) (h : t1 ≤ t2) :
    ∀ (l : List QPair) (acc : Nat),
      scanToThreshold t2 (scanToThreshold t1 l acc).1 (scanToThreshold t1 l acc).2
        = scanToThreshold t2 l acc := by
  intro l
  induction l with
  | nil => intro acc; simp [scanToThreshold]
  | cons p rest ih =>
    intro acc
    by_cases hlt : acc < t1
    · have hlt2 : acc < t2 := lt_of_lt_of_le hlt h
      simp only [scanToThreshold, if_pos hlt, if_pos hlt2]
      exact ih (acc + p.2)
    · simp [scanToThreshold, hlt]

/-- Larger levels give at least as large thresholds (denominators positive). -/
theorem qThreshold_mono (s : Nat) {a b : Level} (ha : 0 < a.den) (hb : 0 < b.den)
    (h : levelLE a b) : qThreshold s a ≤ qThreshold s b := by
  unfold qThreshold
  unfold levelLE at h
  rw [Nat.le_div_iff_mul_le hb]
  calc s * a.num / a.den * b.den ≤ s * a.num * b.den / a.den := by
        rw [Nat.le_div_iff_mul_le ha, Nat.mul_right_comm]
        exact Nat.mul_le_mul_right _ (Nat.div_mul_le_self _ _)
    _ ≤ s * b.num * a.den / a.den := by
        apply Nat.div_le_div_right
        rw [Nat.mul_assoc, Nat.mul_assoc]
        exact Nat.mul_le_mul_left _ h
    _ = s * b.num := Nat.mul_div_cancel _ ha

/-- A scan with threshold zero stays where it is. -/
theorem scanToThreshold_zero (l : List QPair) (acc : Nat) :
    scanToThreshold 0 l acc = (l, acc) := by
  cases l <;> simp [scanToThreshold]

/-- The multi-level loop applied to a scan state that was produced by a
threshold not above the first level's threshold emits, for each level of a
chain of nondecreasing levels, exactly the value of an independent scan. -/
theorem multiScan_eq_map (s last : Nat) (arr : List QPair) :
    ∀ (levels : List Level) (t0 : Nat), (∀ l ∈ levels, 0 < l.den) →
      List.Chain' levelLE levels →
      (∀ l, levels.head? = some l → t0 ≤ qThreshold s l) →
      multiScan s last levels (scanToThreshold t0 arr 0).1 (scanToThreshold t0 arr 0).2
        = levels.map (singleScanValue s last arr) := by
  intro levels
  induction levels with
  | nil => intro t0 _ _ _; simp [multiScan]
  | cons l ls ih =>
    intro t0 hden hchain hhead
    have ht0 : t0 ≤ qThreshold s l := hhead l rfl
    simp only [multiScan, List.map_cons]
    rw [scanToThreshold_resume t0 (qThreshold s l) ht0 arr 0]
    congr 1
    · apply ih (qThreshold s l)
      · intro x hx; exact hden x (List.mem_cons_of_mem _ hx)
      · exact hchain.tail
      · intro l2 hl2
        cases ls with
        | nil => simp at hl2
        | cons lh ltail =>
          have hlh : lh = l2 := by simpa using hl2
          subst hlh
          exact qThreshold_mono s (hden l (by simp)) (hden lh (by simp))
            (List.chain'_cons.mp hchain).1

/-- C1: the single-level weighted-quantile finalization, evaluated at the
claim's concrete merged state (10,5)(20,6)(30,4) with level 1/2.  The total
weight is 15 and the threshold floor(15 * 0.5) = 7 as the claim computes, but
the scan loop adds the current weight and advances the iterator before testing
the threshold again, so it overshoots the entry at which the running sum first
reaches 7 and the function returns 30, not the 20 the claim states. -/
theorem claims_C1 :
    finalizeQuantile [(10, 5), (20, 6), (30, 4)] ⟨1, 2⟩ = 30 ∧
      sumWeight [(10, 5), (20, 6), (30, 4)] = 15 ∧
      qThreshold 15 ⟨1, 2⟩ = 7 := by
  decide

/-- C7 (amended): the multi-level finalization emits one value per requested
level, and the scan is continued across levels in the given order; when the
levels are given in nondecreasing order, the value emitted for each level
equals the value the single-level finalize produces for that level.  (For
levels not in order the scan is NOT restarted, so the equality can fail; see
the counterexample.) -/
theorem claims_C7 (entries : List QPair) (levels : List Level)
    (hden : ∀ l ∈ levels, 0 < l.den) (hchain : List.Chain' levelLE levels) :
    finalizeQuantiles entries levels = levels.map (finalizeQuantile entries) := by
  by_cases he : entries = []
  · subst he
    show List.map (fun _ => 0) levels = _
    apply List.map_congr_left
    intro lvl _
    rfl
  · unfold finalizeQuantiles
    rw [if_neg he]
    have h := multiScan_eq_map (sumWeight entries) (lastValue (sortByKey entries))
      (sortByKey entries) levels 0 hden hchain (fun l _ => Nat.zero_le _)
    rw [scanToThreshold_zero] at h
    rw [h]
    apply List.map_congr_left
    intro lvl _
    unfold singleScanValue finalizeQuantile
    rw [if_neg he]

/-- Witness for claims_C7 at a concrete nondecreasing list of levels. -/
theorem claims_C7_witness :
    (∀ l ∈ [Level.mk 1 4, Level.mk 1 2], 0 < l.den) ∧
      List.Chain' levelLE [Level.mk 1 4, Level.mk 1 2] ∧
      finalizeQuantiles [(1, 1), (2, 1)] [Level.mk 1 4, Level.mk 1 2]
        = [Level.mk 1 4, Level.mk 1 2].map (finalizeQuantile [(1, 1), (2, 1)]) :=
  ⟨by decide, by simp [List.chain'_cons, levelLE],
    claims_C7 _ _ (by decide) (by simp [List.chain'_cons, levelLE])⟩

/-- C7 counterexample: with a level list that is not increasing, the continued
scan does not move backwards, so the value emitted for the later, smaller
level 1/10 is 30, while the single-level finalize yields 20: the levels are
NOT evaluated independently. -/
theorem claims_C7_counterexample : ¬ quantilesMatchSingleAll := by
  intro h
  have hbad := h [(10, 5), (20, 6), (30, 4)] [⟨9, 10⟩, ⟨1, 10⟩]
  exact absurd hbad (by decide)

/-- A position returned by the probe loop is a valid index of the buffer. -/
theorem findCellAux_lt_length (buf : List HashCell) (key : Nat) :
    ∀ (fuel pos p : Nat), findCellAux buf key pos fuel = some p → p < buf.length := by
  intro fuel
  induction fuel with
  | zero => intro pos p h; simp [findCellAux] at h
  | succ fuel ih =>
    intro pos p h
    unfold findCellAux at h
    split at h
    · exact Option.noConfusion h
    · rename_i c hget
      split at h
      · cases h
        obtain ⟨hlt, -⟩ := List.get?_eq_some.mp hget
        exact hlt
      · exact ih _ _ h

/-- Setting an index of a list to the element it already holds is the
identity. -/
theorem list_set_getD_self {α : Type _} (d : α) :
    ∀ (l : List α) (i : Nat), i < l.length → l.set i (l.getD i d) = l := by
  intro l
  induction l with
  | nil => intro i h; simp at h
  | cons a t ih =>
    intro i h
    cases i with
    | zero => rfl
    | succ j =>
      simp only [List.set, List.getD, List.get?]
      have := ih j (by simpa using h)
      simp only [List.getD] at this
      rw [this]

/-- When the cell at p is empty, rolling back the freshly constructed cell
restores the table exactly: the key is zeroed back and the untouched mapped
bytes are the ones that were there. -/
theorem emplaceRolledBack_eq_self (st : HashTableState) (key p : Nat)
    (hp : p < st.buf.length) (hempty : (st.buf.getD p (0, 0)).1 = 0) :
    emplaceRolledBack st key p = st := by
  rcases hc : st.buf.getD p (0, 0) with ⟨ck, cm⟩
  have hck : ck = 0 := by rw [hc] at hempty; exact hempty
  subst hck
  unfold emplaceRolledBack emplaceInserted
  rw [hc]
  simp only [List.set_set, Nat.add_sub_cancel]
  rw [← hc, list_set_getD_self (0, 0) st.buf p hp]

/-- C8 (confirmed): if emplacing a fresh non-zero key pushes the element count
over the fill threshold and the resize allocation fails, the emplace reverts
the insertion — the newly written cell's key is zeroed (keeping the untouched
mapped bytes) and m_size is decremented — and surfaces the allocation error
with the table in exactly its pre-insertion state. -/
theorem claims_C8 (hash : Nat → Nat) (st : HashTableState) (key p : Nat)
    (hfind : findCell st.buf key (hash key % st.buf.length) = some p)
    (hempty : (st.buf.getD p (0, 0)).1 = 0)
    (hover : growerOverflow st.sizeDegree (st.m_size + 1) = true) :
    emplaceNonZero hash true st key = .error (.allocFailed st) := by
  have hp : p < st.buf.length := findCellAux_lt_length st.buf key _ _ p hfind
  unfold emplaceNonZero
  rw [hfind]
  show (if (st.buf.getD p (0, 0)).1 ≠ 0 then _ else _) = _
  rw [if_neg (by rw [hempty]; exact fun hne => hne rfl), if_pos hover, if_pos rfl,
    emplaceRolledBack_eq_self st key p hp hempty]

/-- Witness for claims_C8: a degree-3 table holding keys 1..4 (its fill
threshold); emplacing key 5 with a failing allocator surfaces the error and
leaves the table unchanged. -/
theorem claims_C8_witness :
    growerOverflow 3 5 = true ∧
      emplaceNonZero id true
          ⟨[(0, 0), (1, 0), (2, 0), (3, 0), (4, 0), (0, 0), (0, 0), (0, 0)], 3, 4, false, 0⟩ 5
        = .error (.allocFailed
          ⟨[(0, 0), (1, 0), (2, 0), (3, 0), (4, 0), (0, 0), (0, 0), (0, 0)], 3, 4, false, 0⟩) :=
  ⟨by decide, claims_C8 id _ 5 5 (by decide) (by decide) (by decide)⟩

/-- One growth step at most multiplies the capacity by four, so the new
capacity is bounded by eight times the old fill threshold plus eight. -/
theorem growerBufSize_increased_le (d : Nat) :
    growerBufSize (growerIncreased d) ≤ 8 * growerMaxFill d + 8 := by
  unfold growerBufSize growerIncreased growerMaxFill
  by_cases h23 : 23 ≤ d
  · rw [if_pos h23]
    cases d with
    | zero => omega
    | succ k =>
      have h1 : 2 ^ (k + 1 + 1) ≤ 8 * 2 ^ (k + 1 - 1) := by
        simp only [Nat.add_sub_cancel]
        rw [show (8 : Nat) * 2 ^ k = 2 ^ (k + 3) by rw [pow_add]; ring]
        exact Nat.pow_le_pow_right (by norm_num) (by omega)
      omega
  · rw [if_neg h23]
    cases d with
    | zero => norm_num
    | succ k =>
      simp only [Nat.add_sub_cancel]
      rw [show (8 : Nat) * 2 ^ k = 2 ^ (k + 3) by rw [pow_add]; ring]
      have h1 : 2 ^ (k + 1 + 2) = 2 ^ (k + 3) := by ring_nf
      omega

/-- A successful emplaceNonZero preserves the density invariant: the capacity
stays below the larger of the initial capacity and eight times the element
count. -/
theorem emplaceNonZero_ok_density {hash : Nat → Nat} {st st' : HashTableState}
    {key : Nat} {ins : Bool} {p' : Nat} (d0 : Nat)
    (h : emplaceNonZero hash false st key = .ok (st', ins, p'))
    (hinv : growerBufSize st.sizeDegree ≤ max (growerBufSize d0) (8 * st.m_size)) :
    growerBufSize st'.sizeDegree ≤ max (growerBufSize d0) (8 * st'.m_size) := by
  unfold emplaceNonZero at h
  split at h
  · exact Except.noConfusion h
  · rename_i p hfind
    split at h
    · simp only [Except.ok.injEq, Prod.mk.injEq] at h
      obtain ⟨h1, -, -⟩ := h
      rw [← h1]
      exact hinv
    · split at h
      · rename_i hov
        rw [if_neg Bool.false_ne_true] at h
        split at h
        · exact Except.noConfusion h
        · rename_i p2 hre
          simp only [Except.ok.injEq, Prod.mk.injEq] at h
          obtain ⟨h1, -, -⟩ := h
          rw [← h1]
          show growerBufSize (growerIncreased st.sizeDegree)
            ≤ max (growerBufSize d0) (8 * (st.m_size + 1))
          refine le_trans (growerBufSize_increased_le st.sizeDegree)
            (le_max_of_le_right ?_)
          have hfill : growerMaxFill st.sizeDegree < st.m_size + 1 := by
            simpa [growerOverflow] using hov
          omega
      · simp only [Except.ok.injEq, Prod.mk.injEq] at h
        obtain ⟨h1, -, -⟩ := h
        rw [← h1]
        show growerBufSize st.sizeDegree ≤ max (growerBufSize d0) (8 * (st.m_size + 1))
        refine le_trans hinv (max_le_max_left _ ?_)
        omega

/-- A successful emplace preserves the density invariant. -/
theorem emplace_ok_density {hash : Nat → Nat} {st st' : HashTableState} {key : Nat}
    {ins : Bool} {loc : EmplaceLoc} (d0 : Nat)
    (h : emplace hash false st key = .ok (st', ins, loc))
    (hinv : growerBufSize st.sizeDegree ≤ max (growerBufSize d0) (8 * st.m_size)) :
    growerBufSize st'.sizeDegree ≤ max (growerBufSize d0) (8 * st'.m_size) := by
  unfold emplace at h
  split at h
  · rename_i a b hz
    simp only [Except.ok.injEq, Prod.mk.injEq] at h
    obtain ⟨h1, -, -⟩ := h
    rw [← h1]
    unfold emplaceIfZero at hz
    split at hz
    · split at hz
      · cases hz
        exact hinv
      · cases hz
        show growerBufSize st.sizeDegree ≤ max (growerBufSize d0) (8 * (st.m_size + 1))
        refine le_trans hinv (max_le_max_left _ ?_)
        omega
    · exact Option.noConfusion hz
  · cases hnz : emplaceNonZero hash false st key with
    | error e =>
      rw [hnz] at h
      simp only [Except.map] at h
      exact Except.noConfusion h
    | ok r =>
      obtain ⟨r1, r2, r3⟩ := r
      rw [hnz] at h
      simp only [Except.map, Except.ok.injEq, Prod.mk.injEq] at h
      obtain ⟨h1, -, -⟩ := h
      rw [← h1]
      exact emplaceNonZero_ok_density d0 hnz hinv

/-- The density invariant holds after any successful sequence of emplaces
started from any state satisfying it. -/
theorem emplaceFold_density (hash : Nat → Nat) (d0 : Nat) :
    ∀ (keys : List Nat) (s0 st : HashTableState),
      growerBufSize s0.sizeDegree ≤ max (growerBufSize d0) (8 * s0.m_size) →
      keys.foldlM (fun s k => (emplace hash false s k).map fun r => r.1) s0 = .ok st →
      growerBufSize st.sizeDegree ≤ max (growerBufSize d0) (8 * st.m_size) := by
  intro keys
  induction keys with
  | nil =>
    intro s0 st hinv h
    simp only [List.foldlM_nil] at h
    cases h
    exact hinv
  | cons k ks ih =>
    intro s0 st hinv h
    simp only [List.foldlM_cons] at h
    cases hemp : emplace hash false s0 k with
    | error e =>
      rw [hemp] at h
      exact Except.noConfusion h
    | ok r =>
      obtain ⟨r1, r2, r3⟩ := r
      rw [hemp] at h
      exact ih r1 st (emplace_ok_density d0 hemp hinv) h

/-- C5 (amended): after every sequence of emplace operations starting from the
initial capacity, the buffer capacity is at most EIGHT times the element count
plus the initial capacity.  (The claimed factor four fails because one growth
step raises the degree by two, i.e. quadruples the capacity: see the
counterexample.) -/
theorem claims_C5 (hash : Nat → Nat) (initialDegree : Nat) (keys : List Nat)
    (st : HashTableState) (h : emplaceSeq hash initialDegree keys = .ok st) :
    growerBufSize st.sizeDegree ≤ 8 * st.m_size + growerBufSize initialDegree := by
  have hfresh : growerBufSize (freshTable initialDegree).sizeDegree
      ≤ max (growerBufSize initialDegree) (8 * (freshTable initialDegree).m_size) :=
    le_max_left _ _
  have hb := emplaceFold_density hash initialDegree keys (freshTable initialDegree) st hfresh h
  omega

/-- Witness for claims_C5: two emplaces into a degree-3 table. -/
theorem claims_C5_witness :
    emplaceSeq id 3 [1, 2]
        = .ok (⟨[(0, 0), (1, 0), (2, 0), (0, 0), (0, 0), (0, 0), (0, 0), (0, 0)], 3, 2, false, 0⟩
          : HashTableState) ∧
      growerBufSize 3 ≤ 8 * 2 + growerBufSize 3 :=
  ⟨by decide, claims_C5 id 3 [1, 2]
    ⟨[(0, 0), (1, 0), (2, 0), (0, 0), (0, 0), (0, 0), (0, 0), (0, 0)], 3, 2, false, 0⟩
    (by decide)⟩

/-- C5 counterexample: five emplaces into a degree-3 table (initial capacity 8,
fill threshold 4) trigger one resize, which quadruples the capacity to 32,
while 4 * size + initial capacity = 28: the stated factor-four bound fails. -/
theorem claims_C5_counterexample : ¬ hashDensityBoundFour := by
  intro h
  exact absurd (h id 3 [1, 2, 3, 4, 5]) (by decide)

/-- C2: the binary round-trip of a hash map loses the mapped values.  The map
{1 ↦ 5} (built by the table's own insert) serializes to one full (key, mapped)
cell, but read() re-inserts each deserialized cell by key only
(insert(Cell::getKey(x.getValue())) in HashTable.h), so the mapped value of
key 1 comes back as the uninitialized cell contents (zero-filled fresh
buffer), not 5: size and key set survive, the mapped values do not. -/
theorem claims_C2 :
    insertValue id (freshTable 3) (1, 5)
        = .ok ⟨[(0, 0), (1, 5), (0, 0), (0, 0), (0, 0), (0, 0), (0, 0), (0, 0)], 3, 1, false, 0⟩ ∧
      writeTable ⟨[(0, 0), (1, 5), (0, 0), (0, 0), (0, 0), (0, 0), (0, 0), (0, 0)], 3, 1, false, 0⟩
        = (1, [(1, 5)]) ∧
      readTable id 3 (1, [(1, 5)])
        = .ok ⟨[(0, 0), (1, 0), (0, 0), (0, 0), (0, 0), (0, 0), (0, 0), (0, 0)], 3, 1, false, 0⟩ ∧
      lookupTable id ⟨[(0, 0), (1, 5), (0, 0), (0, 0), (0, 0), (0, 0), (0, 0), (0, 0)], 3, 1, false, 0⟩ 1
        = some 5 ∧
      lookupTable id ⟨[(0, 0), (1, 0), (0, 0), (0, 0), (0, 0), (0, 0), (0, 0), (0, 0)], 3, 1, false, 0⟩ 1
        = some 0 := by
  decide

/-- C3 (amended): on every Info — reachable or not — status() is LOADED
exactly when load_result().object is non-null and the record is NOT currently
loading (loading_id = 0).  The claimed equivalence with a null exception fails:
after a failed reload of a previously loaded object the status is LOADED while
the stored exception is non-null (see the counterexample). -/
theorem claims_C3 (i : Info) :
    i.status = Status.LOADED ↔ (i.load_result.object ≠ none ∧ i.loading_id = 0) := by
  unfold Info.status Info.load_result Info.loading
  cases ho : i.object <;> by_cases hl : i.loading_id = 0 <;>
    simp [ho, hl] <;> cases he : i.exception <;> simp [he]

/-- C3 counterexample: load successfully (object 7), then reload and fail
(exception 9).  The committed state keeps the prior object, stores the
exception, and its status is LOADED — so "LOADED iff object non-null and
exception null" is violated on a reachable Info. -/
theorem claims_C3_counterexample : ¬ statusCoherenceLOADED := by
  intro h
  have hreach : InfoReachable
      (((((Info.mkNew ⟨0, 0, 0⟩).startLoading 1 0).finishLoading 1 (.ok 7) none
          1).startLoading 2 2).finishLoading 2 (.error 9) none 3) :=
    .finishLoading 2 (.error 9) none 3 (.startLoading 2 2 (.finishLoading 1 (.ok 7) none 1
      (.startLoading 1 0 (.init ⟨0, 0, 0⟩))))
  obtain ⟨-, hexc⟩ := (h _ hreach).mp (by decide)
  exact absurd hexc (by decide)

/-- C6 (amended): for error_count > 0 the returned time is now plus
backoff_initial_sec plus the sample, clamped to backoff_max_sec, where the
sample ranges over the CLOSED interval [0, 2^(error_count-1)] (the endpoint is
included: std::uniform_int_distribution(0, b) is inclusive).  For
error_count = 0 the function returns TimePoint::max() when the object does not
support updates or either lifetime bound is zero, and otherwise now plus the
uniform sample from [min_sec, max_sec]. -/
theorem claims_C6 (settings : UpdateSettings) (s : Bool) (mn mx ec now t r : Nat) :
    (0 < ec →
      ((∃ q, q ≤ backoffSampleMax ec ∧
          calculateNextUpdateTime settings s mn mx ec q now = some t)
        ↔ ∃ q, q ≤ 2 ^ (ec - 1) ∧
            t = now + min settings.backoff_max_sec (settings.backoff_initial_sec + q)))
    ∧ (s = false → calculateNextUpdateTime settings s mn mx 0 r now = none)
    ∧ ((mn = 0 ∨ mx = 0) → calculateNextUpdateTime settings s mn mx 0 r now = none)
    ∧ (s = true → 0 < mn → 0 < mx → mn ≤ r → r ≤ mx →
        calculateNextUpdateTime settings s mn mx 0 r now = some (now + r)) := by
  refine ⟨?_, ?_, ?_, ?_⟩
  · intro hec
    have hne : ec ≠ 0 := Nat.pos_iff_ne_zero.mp hec
    constructor
    · rintro ⟨q, hq, hcalc⟩
      simp only [calculateNextUpdateTime, if_neg hne, Option.some.injEq] at hcalc
      exact ⟨q, hq, hcalc.symm⟩
    · rintro ⟨q, hq, ht⟩
      exact ⟨q, hq, by simp only [calculateNextUpdateTime, if_neg hne, ht]⟩
  · intro hs
    subst hs
    simp [calculateNextUpdateTime]
  · intro hz
    cases s <;> rcases hz with hz | hz <;> simp [calculateNextUpdateTime, hz]
  · intro hs hmn hmx hr1 hr2
    subst hs
    have : ¬ (mn = 0 ∨ mx = 0) := by omega
    simp [calculateNextUpdateTime, this]

/-- Witness for claims_C6 at error_count 1, backoff 1/60. -/
theorem claims_C6_witness :
    (∃ q, q ≤ backoffSampleMax 1 ∧
        calculateNextUpdateTime ⟨1, 60⟩ true 1 1 1 q 0 = some 2)
      ↔ ∃ q, q ≤ 2 ^ (1 - 1) ∧ 2 = 0 + min 60 (1 + q) :=
  (claims_C6 ⟨1, 60⟩ true 1 1 1 0 2 0).1 (by decide)

/-- C6 counterexample: with backoff_initial_sec = 1, backoff_max_sec = 60 and
error_count = 1, the draw 1 lies in the distribution's closed support
[0, 2^0] = {0, 1} and produces the delay 2, but the claim's half-open interval
[0, 2^0) = {0} can only produce the delay 1. -/
theorem claims_C6_counterexample : ¬ backoffOutcomesHalfOpen := by
  intro h
  obtain ⟨q, hq, ht⟩ := (h ⟨1, 60⟩ true 1 1 1 0 2 Nat.one_pos).mp
    ⟨1, by decide, by decide⟩
  have hq0 : q = 0 := by
    have : (2 : Nat) ^ (1 - 1) = 1 := by decide
    omega
  subst hq0
  exact absurd ht (by decide)

/-- C10 (confirmed): handing setConfiguration the very snapshot pointer it
already holds is a complete no-op — the guard configs == new_configs compares
the shared_ptr identities and returns before any diffing, so every Info field,
the loading-id counter and the queued jobs are unchanged and nothing is
created, cancelled or removed. -/
theorem claims_C10 (env : DispatcherEnv) (st : DispatcherState) (snap : Snapshot)
    (now : Nat) (h : st.configs = some snap) :
    setConfiguration env st snap now = st := by
  unfold setConfiguration
  rw [h]
  simp

/-- Witness for claims_C10: a dispatcher holding snapshot 1 receives snapshot 1
again. -/
theorem claims_C10_witness :
    (DispatcherState.mk (some ⟨1, []⟩) [] false false 1 []).configs = some ⟨1, []⟩ ∧
      setConfiguration ⟨fun _ _ _ _ => .ok 0, fun _ _ => none⟩
          (DispatcherState.mk (some ⟨1, []⟩) [] false false 1 []) ⟨1, []⟩ 0
        = DispatcherState.mk (some ⟨1, []⟩) [] false false 1 [] :=
  ⟨rfl, claims_C10 _ _ _ _ rfl⟩

/-- C4: when re-reading a changed file throws during parsing, the reader does
NOT retain the file's previously cached contents.  Concretely: the cache holds
file 1 (declaring object 10) and file 2 (declaring object 20), both at mtime 1;
on the next read file 1 exists with mtime 5 but parsing throws, file 2 exists
with mtime 5 and parses to a new config for object 20.  readFileInfo's catch
block returns false without marking file 1 in_use, so the purge pass erases
its FileInfo and the rebuilt snapshot (id advanced to 1) contains only object
20 — object 10's entry is dropped, although the claim (and the in_use comment,
which reserves destruction for deleted files) says it is retained. -/
theorem claims_C4 :
    (readerRead
        (fun p => if p = 1 then ⟨true, 5, .error ()⟩
          else if p = 2 then ⟨true, 5, .ok [(20, ⟨2, 7, 0⟩)]⟩
          else ⟨false, 0, .ok []⟩)
        [1, 2] false
        ⟨some (0, [(10, ⟨1, 3, 0⟩), (20, ⟨2, 4, 0⟩)]),
          [(1, ⟨1, [(10, ⟨1, 3, 0⟩)], true⟩), (2, ⟨1, [(20, ⟨2, 4, 0⟩)], true⟩)], 1⟩).2
      = some (1, [(20, ⟨2, 7, 0⟩)]) := by
  rfl

/-- emplaceColumn never removes a binding. -/
theorem mem_emplaceColumn_of_mem {m : List (Nat × AST)} {x : Nat × AST}
    (h : x ∈ m) (c : Nat) (e : AST) : x ∈ emplaceColumn m c e := by
  unfold emplaceColumn
  split
  · exact h
  · exact List.mem_append_left _ h

/-- A binding found after emplaceColumn is an old one or the new pair. -/
theorem mem_emplaceColumn {m : List (Nat × AST)} {x : Nat × AST} {c : Nat} {e : AST}
    (h : x ∈ emplaceColumn m c e) : x ∈ m ∨ x = (c, e) := by
  unfold emplaceColumn at h
  split at h
  · exact Or.inl h
  · rcases List.mem_append.mp h with h1 | h1
    · exact Or.inl h1
    · exact Or.inr (by simpa using h1)

/-- emplaceColumn of a key absent from the map appends the binding. -/
theorem emplaceColumn_of_absent {m : List (Nat × AST)} {c : Nat} (e : AST)
    (h : ∀ x ∈ m, x.1 ≠ c) : emplaceColumn m c e = m ++ [(c, e)] := by
  unfold emplaceColumn
  have hfind : m.find? (·.1 == c) = none := by
    rw [List.find?_eq_none]
    intro x hx
    simpa using h x hx
  rw [hfind]
  rfl

/-- The emplace fold of an UPDATE keeps every existing binding. -/
theorem updFold_mem_of_mem (storage : StorageModel) (pred : AST) :
    ∀ (pairs : List (Nat × AST)) (m0 : List (Nat × AST)) (x : Nat × AST), x ∈ m0 →
      x ∈ pairs.foldl (updStep storage pred) m0 := by
  intro pairs
  induction pairs with
  | nil => intro m0 x h; exact h
  | cons kv rest ih =>
    intro m0 x h
    simp only [List.foldl_cons]
    exact ih _ x (mem_emplaceColumn_of_mem h kv.1 (castIfExpr storage pred kv.1 kv.2))

/-- When the keys are distinct and not yet bound, the emplace fold of an
UPDATE binds every pair of the list to its replacement expression. -/
theorem updFold_mem (storage : StorageModel) (pred : AST) :
    ∀ (pairs : List (Nat × AST)) (m0 : List (Nat × AST)) (c : Nat) (e : AST),
      (c, e) ∈ pairs → (pairs.map Prod.fst).Nodup → (∀ x ∈ m0, x.1 ≠ c) →
      (c, castIfExpr storage pred c e) ∈ pairs.foldl (updStep storage pred) m0 := by
  intro pairs
  induction pairs with
  | nil => intro m0 c e h; simp at h
  | cons kv rest ih =>
    intro m0 c e hmem hnodup habs
    simp only [List.foldl_cons]
    rcases List.mem_cons.mp hmem with heq | hrest
    · apply updFold_mem_of_mem
      show (c, castIfExpr storage pred c e) ∈ updStep storage pred m0 kv
      rw [← heq]
      show (c, castIfExpr storage pred c e) ∈ emplaceColumn m0 c (castIfExpr storage pred c e)
      rw [emplaceColumn_of_absent _ habs]
      exact List.mem_append_right _ (List.mem_singleton.mpr rfl)
    · have hnotin : kv.1 ∉ rest.map Prod.fst := (List.nodup_cons.mp hnodup).1
      apply ih (updStep storage pred m0 kv) c e hrest (List.nodup_cons.mp hnodup).2
      intro x hx
      rcases mem_emplaceColumn hx with h1 | h1
      · exact habs x h1
      · rw [h1]
        show kv.1 ≠ c
        intro hcc
        apply hnotin
        rw [hcc]
        exact List.mem_map_of_mem Prod.fst hrest

/-- Every existing binding survives the materialized-stage fold. -/
theorem matFold_mem_of_mem :
    ∀ (cols : List ColumnDesc) (acc : List (Nat × AST)) (x : Nat × AST), x ∈ acc →
      x ∈ cols.foldl matStep acc := by
  intro cols
  induction cols with
  | nil => intro acc x h; exact h
  | cons c rest ih =>
    intro acc x h
    simp only [List.foldl_cons]
    apply ih
    unfold matStep
    cases hc : c.materialized with
    | none => exact h
    | some e2 => exact mem_emplaceColumn_of_mem h c.name e2

/-- With distinct column names, the materialized-stage fold binds every
materialized column to its defining expression. -/
theorem matFold_mem :
    ∀ (cols : List ColumnDesc) (acc : List (Nat × AST)) (col : ColumnDesc) (e : AST),
      col ∈ cols → col.materialized = some e → (cols.map (·.name)).Nodup →
      (∀ x ∈ acc, x.1 ≠ col.name) →
      (col.name, e) ∈ cols.foldl matStep acc := by
  intro cols
  induction cols with
  | nil => intro acc col e h; simp at h
  | cons c rest ih =>
    intro acc col e hmem hmat hnodup habs
    simp only [List.foldl_cons]
    rcases List.mem_cons.mp hmem with heq | hrest
    · subst heq
      apply matFold_mem_of_mem
      unfold matStep
      rw [hmat]
      show (col.name, e) ∈ emplaceColumn acc col.name e
      rw [emplaceColumn_of_absent e habs]
      exact List.mem_append_right _ (List.mem_singleton.mpr rfl)
    · have hnotin : c.name ∉ rest.map (·.name) := (List.nodup_cons.mp hnodup).1
      apply ih (matStep acc c) col e hrest hmat (List.nodup_cons.mp hnodup).2
      intro x hx
      unfold matStep at hx
      cases hc : c.materialized with
      | none =>
        rw [hc] at hx
        exact habs x hx
      | some e2 =>
        rw [hc] at hx
        rcases mem_emplaceColumn hx with h1 | h1
        · exact habs x h1
        · rw [h1]
          show c.name ≠ col.name
          intro hcc
          apply hnotin
          rw [hcc]
          exact List.mem_map_of_mem (·.name) hrest

/-- Every binding the materialized-stage fold produces comes from a
materialized column. -/
theorem matFold_sound :
    ∀ (cols : List ColumnDesc) (acc : List (Nat × AST)) (p : Nat × AST),
      p ∈ cols.foldl matStep acc →
      p ∈ acc ∨ ∃ col ∈ cols, col.name = p.1 ∧ col.materialized = some p.2 := by
  intro cols
  induction cols with
  | nil => intro acc p h; exact Or.inl h
  | cons c rest ih =>
    intro acc p h
    simp only [List.foldl_cons] at h
    rcases ih (matStep acc c) p h with h1 | ⟨col, h1, h2⟩
    · unfold matStep at h1
      cases hc : c.materialized with
      | none =>
        rw [hc] at h1
        exact Or.inl h1
      | some e2 =>
        rw [hc] at h1
        rcases mem_emplaceColumn h1 with h2 | h2
        · exact Or.inl h2
        · refine Or.inr ⟨c, List.mem_cons_self _ _, ?_, ?_⟩
          · rw [h2]
          · rw [h2, hc]
    · exact Or.inr ⟨col, List.mem_cons_of_mem _ h1, h2⟩

/-- Membership in the materialized follow-up stage for every materialized
column. -/
theorem matStage_mem {storage : StorageModel} {col : ColumnDesc} {e : AST}
    (hcol : col ∈ storage.columns) (hmat : col.materialized = some e)
    (hnodup : (storage.columns.map (·.name)).Nodup) :
    (col.name, e) ∈ (matStage storage).column_to_updated :=
  matFold_mem storage.columns [] col e hcol hmat hnodup (by simp)

/-- The materialized follow-up stage binds only materialized columns. -/
theorem matStage_sound {storage : StorageModel} {p : Nat × AST}
    (h : p ∈ (matStage storage).column_to_updated) :
    ∃ col ∈ storage.columns, col.name = p.1 ∧ col.materialized = some p.2 := by
  rcases matFold_sound storage.columns [] p h with h1 | h1
  · simp at h1
  · exact h1

/-- dedupInsert folds only add elements of the source list. -/
theorem dedupFold_sound :
    ∀ (src acc : List Nat) (m : Nat), m ∈ src.foldl dedupInsert acc →
      m ∈ acc ∨ m ∈ src := by
  intro src
  induction src with
  | nil => intro acc m h; exact Or.inl h
  | cons a rest ih =>
    intro acc m h
    simp only [List.foldl_cons] at h
    rcases ih (dedupInsert acc a) m h with h1 | h1
    · unfold dedupInsert at h1
      split at h1
      · exact Or.inl h1
      · rcases List.mem_append.mp h1 with h2 | h2
        · exact Or.inl h2
        · exact Or.inr (List.mem_cons.mpr (Or.inl (by simpa using h2)))
    · exact Or.inr (List.mem_cons_of_mem _ h1)

/-- Every name in column_to_affected_materialized[c] is the name of a
materialized column of the storage. -/
theorem affectedFold_sound (updated : List Nat) (c : Nat) :
    ∀ (cols : List ColumnDesc) (acc : List Nat) (m : Nat),
      m ∈ cols.foldl (affectedStep updated c) acc →
      m ∈ acc ∨ ∃ col ∈ cols, col.name = m ∧ col.materialized.isSome := by
  intro cols
  induction cols with
  | nil => intro acc m h; exact Or.inl h
  | cons col rest ih =>
    intro acc m h
    simp only [List.foldl_cons] at h
    rcases ih (affectedStep updated c acc col) m h with h1 | ⟨col2, h1, h2⟩
    · unfold affectedStep at h1
      split at h1
      · exact Or.inl h1
      · rename_i e heq
        split at h1
        · rcases List.mem_append.mp h1 with h2 | h2
          · exact Or.inl h2
          · have hm : m = col.name := by simpa using h2
            exact Or.inr ⟨col, List.mem_cons_self _ _, hm.symm, by rw [heq]; rfl⟩
        · exact Or.inl h1
    · exact Or.inr ⟨col2, List.mem_cons_of_mem _ h1, h2⟩

/-- Every name in the affected_materialized set of an UPDATE names a
materialized column of the storage. -/
theorem affectedOfPairs_sound (storage : StorageModel) (updated : List Nat) :
    ∀ (pairs : List (Nat × AST)) (a0 : List Nat) (m : Nat),
      m ∈ pairs.foldl (fun a kv =>
        (affectedMaterializedOf storage updated kv.1).foldl dedupInsert a) a0 →
      m ∈ a0 ∨ ∃ col ∈ storage.columns, col.name = m ∧ col.materialized.isSome := by
  intro pairs
  induction pairs with
  | nil => intro a0 m h; exact Or.inl h
  | cons kv rest ih =>
    intro a0 m h
    simp only [List.foldl_cons] at h
    rcases ih _ m h with h1 | h1
    · rcases dedupFold_sound _ a0 m h1 with h2 | h2
      · exact Or.inl h2
      · rcases affectedFold_sound updated kv.1 storage.columns [] m h2 with h3 | h3
        · simp at h3
        · exact Or.inr h3
    · exact Or.inr h1

/-- The stage list produced by the DELETE/UPDATE open-stage guard starts with
a stage holding no column updates. -/
theorem openFilterStage_shape (sts : List Stage) :
    ∃ top rest, openFilterStage sts = top :: rest ∧ top.column_to_updated = [] := by
  cases sts with
  | nil => exact ⟨emptyStage, [], rfl, rfl⟩
  | cons top rest =>
    by_cases hctu : top.column_to_updated.isEmpty
    · have hn : needNewStage (top :: rest) = false := by simp [needNewStage, hctu]
      unfold openFilterStage
      rw [hn]
      exact ⟨top, rest, rfl, List.isEmpty_iff.mp hctu⟩
    · rw [Bool.not_eq_true] at hctu
      have hn : needNewStage (top :: rest) = true := by simp [needNewStage, hctu]
      unfold openFilterStage
      rw [hn]
      exact ⟨emptyStage, top :: rest, rfl, rfl⟩

/-- The same after the additional UPDATE guard. -/
theorem updateGuardStages_shape (sts : List Stage) :
    ∃ top rest, updateGuardStages sts = top :: rest ∧ top.column_to_updated = [] := by
  obtain ⟨t, r, he, hc⟩ := openFilterStage_shape sts
  unfold updateGuardStages
  rw [he]
  split
  · exact ⟨emptyStage, t :: r, rfl, rfl⟩
  · exact ⟨t, r, rfl, hc⟩

/-- The guards only ever add stages in front. -/
theorem mem_openFilterStage {sts : List Stage} {st : Stage} (h : st ∈ sts) :
    st ∈ openFilterStage sts := by
  unfold openFilterStage
  split
  · exact List.mem_cons_of_mem _ h
  · exact h

/-- The guards only ever add stages in front. -/
theorem mem_updateGuardStages {sts : List Stage} {st : Stage} (h : st ∈ sts) :
    st ∈ updateGuardStages sts := by
  unfold updateGuardStages
  split
  · exact List.mem_cons_of_mem _ (mem_openFilterStage h)
  · exact mem_openFilterStage h

/-- A stage that already updates columns is never the head the staging loop
modifies, so it survives modifyHead untouched. -/
theorem mem_modifyHead_of_ctu_ne (f : Stage → Stage) {sts : List Stage} {top : Stage}
    {rest : List Stage} (hsts : sts = top :: rest) (htop : top.column_to_updated = [])
    {st : Stage} (hst : st ∈ sts) (hne : st.column_to_updated ≠ []) :
    st ∈ modifyHead f sts := by
  subst hsts
  rcases List.mem_cons.mp hst with h1 | h1
  · rw [h1] at hne
    exact absurd htop hne
  · exact List.mem_cons_of_mem _ h1

/-- A pair present in some stage is still present in some stage after
modifyHead, provided the modification keeps existing bindings. -/
theorem pair_mem_modifyHead {f : Stage → Stage}
    (hf : ∀ s, ∀ x ∈ s.column_to_updated, x ∈ (f s).column_to_updated)
    {sts : List Stage} {x : Nat × AST} (h : ∃ st ∈ sts, x ∈ st.column_to_updated) :
    ∃ st ∈ modifyHead f sts, x ∈ st.column_to_updated := by
  obtain ⟨st, hst, hx⟩ := h
  cases sts with
  | nil => simp at hst
  | cons top rest =>
    rcases List.mem_cons.mp hst with h1 | h1
    · subst h1
      exact ⟨f st, List.mem_cons_self _ _, hf st x hx⟩
    · exact ⟨st, List.mem_cons_of_mem _ h1, hx⟩

/-- One UPDATE's stage transformation keeps every pair already present in
some stage. -/
theorem updateStagesFn_pair_persist {storage : StorageModel} {updated : List Nat}
    {sts : List Stage} {pairs : List (Nat × AST)} {pred : AST} {x : Nat × AST}
    (h : ∃ st ∈ sts, x ∈ st.column_to_updated) :
    ∃ st ∈ updateStagesFn storage updated sts pairs pred, x ∈ st.column_to_updated := by
  have key : ∃ st ∈ applyUpdates storage pairs pred sts, x ∈ st.column_to_updated := by
    unfold applyUpdates
    apply pair_mem_modifyHead
    · intro s y hy
      exact updFold_mem_of_mem storage pred pairs s.column_to_updated y hy
    · obtain ⟨st, h1, h2⟩ := h
      exact ⟨st, mem_updateGuardStages h1, h2⟩
  unfold updateStagesFn
  split
  · exact key
  · obtain ⟨st, h1, h2⟩ := key
    exact ⟨st, List.mem_cons_of_mem _ h1, h2⟩

/-- One DELETE's stage transformation keeps every pair already present in
some stage. -/
theorem deleteStagesFn_pair_persist {sts : List Stage} {pred : AST} {x : Nat × AST}
    (h : ∃ st ∈ sts, x ∈ st.column_to_updated) :
    ∃ st ∈ deleteStagesFn sts pred, x ∈ st.column_to_updated := by
  unfold deleteStagesFn
  apply pair_mem_modifyHead
  · intro s y hy
    exact hy
  · obtain ⟨st, h1, h2⟩ := h
    exact ⟨st, mem_openFilterStage h1, h2⟩

/-- A stage that already updates columns survives one UPDATE untouched. -/
theorem updateStagesFn_stage_persist {storage : StorageModel} {updated : List Nat}
    {sts : List Stage} {pairs : List (Nat × AST)} {pred : AST} {st : Stage}
    (hst : st ∈ sts) (hne : st.column_to_updated ≠ []) :
    st ∈ updateStagesFn storage updated sts pairs pred := by
  have key : st ∈ applyUpdates storage pairs pred sts := by
    obtain ⟨t, r, he, hc⟩ := updateGuardStages_shape sts
    unfold applyUpdates
    exact mem_modifyHead_of_ctu_ne _ he hc (mem_updateGuardStages hst) hne
  unfold updateStagesFn
  split
  · exact key
  · exact List.mem_cons_of_mem _ key

/-- A stage that already updates columns survives one DELETE untouched. -/
theorem deleteStagesFn_stage_persist {sts : List Stage} {pred : AST} {st : Stage}
    (hst : st ∈ sts) (hne : st.column_to_updated ≠ []) :
    st ∈ deleteStagesFn sts pred := by
  obtain ⟨t, r, he, hc⟩ := openFilterStage_shape sts
  unfold deleteStagesFn
  exact mem_modifyHead_of_ctu_ne _ he hc (mem_openFilterStage hst) hne

/-- One staging step keeps every pair already present in some stage. -/
theorem stageStep_pair_persist {storage : StorageModel} {updated : List Nat}
    {acc acc' : List Stage × List Nat} {cmd : MutationCommand} {x : Nat × AST}
    (h : stageStep storage updated acc cmd = .ok acc')
    (hx : ∃ st ∈ acc.1, x ∈ st.column_to_updated) :
    ∃ st ∈ acc'.1, x ∈ st.column_to_updated := by
  cases cmd with
  | delete pred =>
    simp only [stageStep] at h
    cases h
    exact deleteStagesFn_pair_persist hx
  | update pairs pred =>
    simp only [stageStep] at h
    cases h
    exact updateStagesFn_pair_persist hx
  | materializeIndex iname =>
    simp only [stageStep] at h
    split at h
    · exact Except.noConfusion h
    · cases h
      exact hx

/-- One staging step keeps every stage that already updates columns. -/
theorem stageStep_stage_persist {storage : StorageModel} {updated : List Nat}
    {acc acc' : List Stage × List Nat} {cmd : MutationCommand} {st : Stage}
    (h : stageStep storage updated acc cmd = .ok acc')
    (hst : st ∈ acc.1) (hne : st.column_to_updated ≠ []) : st ∈ acc'.1 := by
  cases cmd with
  | delete pred =>
    simp only [stageStep] at h
    cases h
    exact deleteStagesFn_stage_persist hst hne
  | update pairs pred =>
    simp only [stageStep] at h
    cases h
    exact updateStagesFn_stage_persist hst hne
  | materializeIndex iname =>
    simp only [stageStep] at h
    split at h
    · exact Except.noConfusion h
    · cases h
      exact hst

/-- The staging loop keeps every pair already present in some stage. -/
theorem stagingLoop_pair_persist {storage : StorageModel} {updated : List Nat} :
    ∀ (cmds : List MutationCommand) (acc r : List Stage × List Nat),
      stagingLoop storage updated cmds acc = .ok r →
      ∀ x : Nat × AST, (∃ st ∈ acc.1, x ∈ st.column_to_updated) →
      ∃ st ∈ r.1, x ∈ st.column_to_updated := by
  intro cmds
  induction cmds with
  | nil =>
    intro acc r h x hx
    cases h
    exact hx
  | cons c rest ih =>
    intro acc r h x hx
    unfold stagingLoop at h
    cases hs : stageStep storage updated acc c with
    | error e =>
      rw [hs] at h
      exact Except.noConfusion h
    | ok acc2 =>
      rw [hs] at h
      exact ih acc2 r h x (stageStep_pair_persist hs hx)

/-- The staging loop keeps every stage that already updates columns. -/
theorem stagingLoop_stage_persist {storage : StorageModel} {updated : List Nat} :
    ∀ (cmds : List MutationCommand) (acc r : List Stage × List Nat),
      stagingLoop storage updated cmds acc = .ok r →
      ∀ st : Stage, st ∈ acc.1 → st.column_to_updated ≠ [] → st ∈ r.1 := by
  intro cmds
  induction cmds with
  | nil =>
    intro acc r h st hst hne
    cases h
    exact hst
  | cons c rest ih =>
    intro acc r h st hst hne
    unfold stagingLoop at h
    cases hs : stageStep storage updated acc c with
    | error e =>
      rw [hs] at h
      exact Except.noConfusion h
    | ok acc2 =>
      rw [hs] at h
      exact ih acc2 r h st (stageStep_stage_persist hs hst hne) hne

/-- Splitting a staging-loop run at a list decomposition. -/
theorem stagingLoop_append {storage : StorageModel} {updated : List Nat} :
    ∀ (l1 l2 : List MutationCommand) (acc r : List Stage × List Nat),
      stagingLoop storage updated (l1 ++ l2) acc = .ok r →
      ∃ mid, stagingLoop storage updated l1 acc = .ok mid ∧
        stagingLoop storage updated l2 mid = .ok r := by
  intro l1
  induction l1 with
  | nil =>
    intro l2 acc r h
    exact ⟨acc, rfl, h⟩
  | cons c rest ih =>
    intro l2 acc r h
    rw [List.cons_append] at h
    unfold stagingLoop at h
    cases hs : stageStep storage updated acc c with
    | error e =>
      rw [hs] at h
      exact Except.noConfusion h
    | ok acc2 =>
      rw [hs] at h
      obtain ⟨mid, h1, h2⟩ := ih l2 acc2 r h
      refine ⟨mid, ?_, h2⟩
      unfold stagingLoop
      rw [hs]
      exact h1

/-- An UPDATE establishes, for each of its pairs, the CAST(if(...)) binding in
some stage of its own transformation result. -/
theorem updateStagesFn_estab {storage : StorageModel} {updated : List Nat}
    (sts : List Stage) (pred : AST) {pairs : List (Nat × AST)} {c : Nat} {e : AST}
    (hmem : (c, e) ∈ pairs) (hnodup : (pairs.map Prod.fst).Nodup) :
    ∃ st ∈ updateStagesFn storage updated sts pairs pred,
      (c, castIfExpr storage pred c e) ∈ st.column_to_updated := by
  obtain ⟨top, rest, he, hc⟩ := updateGuardStages_shape sts
  have key : ∃ st ∈ applyUpdates storage pairs pred sts,
      (c, castIfExpr storage pred c e) ∈ st.column_to_updated := by
    refine ⟨{ top with
      column_to_updated := pairs.foldl (updStep storage pred) top.column_to_updated },
      ?_, ?_⟩
    · unfold applyUpdates
      rw [he]
      exact List.mem_cons_self _ _
    · show (c, castIfExpr storage pred c e) ∈
        pairs.foldl (updStep storage pred) top.column_to_updated
      rw [hc]
      exact updFold_mem storage pred pairs [] c e hmem hnodup (by simp)
  unfold updateStagesFn
  split
  · exact key
  · obtain ⟨st, h1, h2⟩ := key
    exact ⟨st, List.mem_cons_of_mem _ h1, h2⟩

/-- When the UPDATE touches a column some materialized column depends on, the
materialized follow-up stage is prepended. -/
theorem updateStagesFn_mat {storage : StorageModel} {updated : List Nat}
    (sts : List Stage) (pairs : List (Nat × AST)) (pred : AST)
    (hne : (affectedOfPairs storage updated pairs).isEmpty = false) :
    matStage storage ∈ updateStagesFn storage updated sts pairs pred := by
  unfold updateStagesFn
  have hcond : ¬ ((affectedOfPairs storage updated pairs).isEmpty = true) := by
    rw [hne]
    exact Bool.false_ne_true
  rw [if_neg hcond]
  exact List.mem_cons_self _ _

/-- When some column is affected, the materialized follow-up stage is
nonempty (the affected column is materialized, so the stage binds it). -/
theorem matStage_ctu_ne {storage : StorageModel} {updated : List Nat}
    {pairs : List (Nat × AST)}
    (hnodup : (storage.columns.map (·.name)).Nodup)
    (hne : affectedOfPairs storage updated pairs ≠ []) :
    (matStage storage).column_to_updated ≠ [] := by
  obtain ⟨m, hm⟩ := List.exists_mem_of_ne_nil _ hne
  rcases affectedOfPairs_sound storage updated pairs [] m hm with h1 | h1
  · simp at h1
  · obtain ⟨col, hcol, hname, hsome⟩ := h1
    obtain ⟨e, he⟩ := Option.isSome_iff_exists.mp hsome
    intro hctu
    have hmem := matStage_mem hcol he hnodup
    rw [hctu] at hmem
    simp at hmem

/-- Membership in the reversed stage list survives the final reverse and the
optional index stage of prepare. -/
theorem mem_finalStages {r : List Stage × List Nat} {st : Stage} (h : st ∈ r.1) :
    st ∈ (if r.2.isEmpty then r.1.reverse else (indexStage r.2 :: r.1).reverse) := by
  split
  · exact List.mem_reverse.mpr h
  · exact List.mem_reverse.mpr (List.mem_cons_of_mem _ h)

/-- A staging-loop run over a command list containing an UPDATE yields, for
each of its pairs, the CAST(if(...)) binding in some stage, and — when the
UPDATE affects some materialized column — the full materialized follow-up
stage. -/
theorem stagingLoop_update (storage : StorageModel) (updated : List Nat)
    (l1 l2 : List MutationCommand) (pairs : List (Nat × AST)) (predicate : AST)
    (acc r : List Stage × List Nat)
    (h : stagingLoop storage updated
      (l1 ++ MutationCommand.update pairs predicate :: l2) acc = .ok r)
    (hnodup : (pairs.map Prod.fst).Nodup)
    (hcols : (storage.columns.map (·.name)).Nodup) :
    (∀ ce ∈ pairs, ∃ st ∈ r.1,
        (ce.1, castIfExpr storage predicate ce.1 ce.2) ∈ st.column_to_updated)
    ∧ (affectedOfPairs storage updated pairs ≠ [] → matStage storage ∈ r.1) := by
  obtain ⟨mid, hA, hB⟩ := stagingLoop_append l1
    (MutationCommand.update pairs predicate :: l2) acc r h
  replace hB : stagingLoop storage updated l2
      (updateStagesFn storage updated mid.1 pairs predicate, mid.2) = .ok r := hB
  constructor
  · intro ce hce
    obtain ⟨c, e⟩ := ce
    have hest := @updateStagesFn_estab storage updated mid.1 predicate pairs c e hce hnodup
    exact stagingLoop_pair_persist l2 _ r hB _ hest
  · intro haff
    have hfalse : (affectedOfPairs storage updated pairs).isEmpty = false := by
      cases hh : affectedOfPairs storage updated pairs with
      | nil => exact absurd hh haff
      | cons a l => rfl
    have hmem : matStage storage ∈
        updateStagesFn storage updated mid.1 pairs predicate :=
      updateStagesFn_mat mid.1 pairs predicate hfalse
    exact stagingLoop_stage_persist l2 _ r hB (matStage storage) hmem
      (matStage_ctu_ne hcols haff)

/-- C9: when prepare succeeds on a command list containing an UPDATE (with
distinct updated columns, over a table with distinct column names), each
updated column's CAST(if(predicate, expr, column), type) replacement lands in
some stage; and whenever the UPDATE touches a column some materialized column
depends on, some stage rewrites EVERY materialized column of the table — not
only the dependent ones — to its defining expression, and binds only
materialized columns. -/
theorem claims_C9 (storage : StorageModel) (commands : List MutationCommand)
    (stages : List Stage) (pairs : List (Nat × AST)) (predicate : AST)
    (hok : prepare storage commands = .ok stages)
    (hcmd : MutationCommand.update pairs predicate ∈ commands)
    (hnodup : (pairs.map Prod.fst).Nodup)
    (hcols : (storage.columns.map (·.name)).Nodup) :
    (∀ ce ∈ pairs, ∃ st ∈ stages,
        (ce.1, castIfExpr storage predicate ce.1 ce.2) ∈ st.column_to_updated)
    ∧ (affectedOfPairs storage (updatedColumnsOf commands) pairs ≠ [] →
        ∃ st ∈ stages,
          (∀ col ∈ storage.columns, ∀ e, col.materialized = some e →
              (col.name, e) ∈ st.column_to_updated)
          ∧ ∀ p ∈ st.column_to_updated,
              ∃ col ∈ storage.columns, col.name = p.1 ∧
                col.materialized = some p.2) := by
  obtain ⟨l1, l2, h12⟩ := List.append_of_mem hcmd
  subst h12
  unfold prepare at hok
  split at hok
  · exact Except.noConfusion hok
  split at hok
  · exact Except.noConfusion hok
  split at hok
  · exact Except.noConfusion hok
  rename_i r heq
  cases hok
  have main := stagingLoop_update storage
    (updatedColumnsOf (l1 ++ MutationCommand.update pairs predicate :: l2))
    l1 l2 pairs predicate _ r heq hnodup hcols
  constructor
  · intro ce hce
    obtain ⟨st, h1, h2⟩ := main.1 ce hce
    exact ⟨st, mem_finalStages h1, h2⟩
  · intro haff
    refine ⟨matStage storage, mem_finalStages (main.2 haff), ?_, ?_⟩
    · intro col hcol e he
      exact matStage_mem hcol he hcols
    · intro p hp
      exact matStage_sound hp

/-- Witness for C9: on the concrete instance every hypothesis holds, and the
theorem applies. -/
theorem claims_C9_witness :
    prepare exampleStorage exampleCommands = .ok exampleStages ∧
    MutationCommand.update exampleUpdatePairs exampleUpdatePred ∈ exampleCommands ∧
    (exampleUpdatePairs.map Prod.fst).Nodup ∧
    (exampleStorage.columns.map (·.name)).Nodup ∧
    ((∀ ce ∈ exampleUpdatePairs, ∃ st ∈ exampleStages,
        (ce.1, castIfExpr exampleStorage exampleUpdatePred ce.1 ce.2) ∈
          st.column_to_updated)
      ∧ (affectedOfPairs exampleStorage (updatedColumnsOf exampleCommands)
            exampleUpdatePairs ≠ [] →
          ∃ st ∈ exampleStages,
            (∀ col ∈ exampleStorage.columns, ∀ e, col.materialized = some e →
                (col.name, e) ∈ st.column_to_updated)
            ∧ ∀ p ∈ st.column_to_updated,
                ∃ col ∈ exampleStorage.columns, col.name = p.1 ∧
                  col.materialized = some p.2)) :=
  ⟨by decide, by decide, by decide, by decide,
   claims_C9 exampleStorage exampleCommands exampleStages exampleUpdatePairs
     exampleUpdatePred (by decide) (by decide) (by decide) (by decide)⟩

/-- The second half of C9 as stated is false: on the concrete instance the
materialized follow-up stage also rewrites column 4, which does not depend on
the updated column 1, so no stage binds the affected columns AND ONLY those. -/
theorem claims_C9_counterexample : ¬ updateStagingAsStated := by
  intro h
  have hinst := h exampleStorage exampleCommands exampleStages exampleUpdatePairs
    exampleUpdatePred (by decide) (by decide) (by decide) (by decide)
  exact absurd hinst (by decide)

end Spec2Proof